import Mathlib

/-!
Shallow embedding of the ripple-payments library (go-faast/ripple-payments),
translated from the bundled source `index.es.js` and `utils.ts`.

Amounts in the source are `BigNumber` values (bignumber.js), which form the
extended rationals with a NaN element; they are embedded as `BigNum` below.
Ledger-client interactions (ripple-lib) are modelled as oracle parameters and
an explicit trace of `LedgerCall` effects, so that claims of the form
"no prepare call is issued" are statable.
-/

namespace RipplePayments

/-- Decidable equality for Except results (needed to evaluate the model at
concrete inputs). -/
instance {e a : Type} [DecidableEq e] [DecidableEq a] : DecidableEq (Except e a) := fun x y =>
  match x, y with
  | .ok v, .ok w =>
    if h : v = w then isTrue (by rw [h]) else isFalse (by intro hh; cases hh; exact h rfl)
  | .error v, .error w =>
    if h : v = w then isTrue (by rw [h]) else isFalse (by intro hh; cases hh; exact h rfl)
  | .ok _, .error _ => isFalse (by intro hh; cases hh)
  | .error _, .ok _ => isFalse (by intro hh; cases hh)

/-- BigNumber value: NaN, +Infinity, -Infinity, or a finite decimal
(arbitrary-precision decimals are embedded as rationals). -/
inductive BigNum where
  | nan
  | posInf
  | negInf
  | fin (q : ℚ)
deriving DecidableEq, Repr

/-- BigNumber.isNaN() -/
def BigNum.isNan : BigNum → Bool
  | .nan => true
  | _ => false

/-- BigNumber.lt: comparisons involving NaN are false. -/
def BigNum.blt : BigNum → BigNum → Bool
  | .nan, _ => false
  | _, .nan => false
  | .negInf, .negInf => false
  | .negInf, _ => true
  | _, .negInf => false
  | .posInf, _ => false
  | .fin _, .posInf => true
  | .fin a, .fin b => decide (a < b)

/-- BigNumber.lte: comparisons involving NaN are false. -/
def BigNum.ble : BigNum → BigNum → Bool
  | .nan, _ => false
  | _, .nan => false
  | .negInf, _ => true
  | _, .negInf => false
  | _, .posInf => true
  | .posInf, _ => false
  | .fin a, .fin b => decide (a ≤ b)

/-- BigNumber.gt -/
def BigNum.bgt (a b : BigNum) : Bool := BigNum.blt b a

/-- BigNumber.negated -/
def BigNum.neg : BigNum → BigNum
  | .nan => .nan
  | .posInf => .negInf
  | .negInf => .posInf
  | .fin q => .fin (-q)

/-- BigNumber.plus: NaN propagates, opposite infinities give NaN. -/
def BigNum.add : BigNum → BigNum → BigNum
  | .nan, _ => .nan
  | _, .nan => .nan
  | .posInf, .negInf => .nan
  | .negInf, .posInf => .nan
  | .posInf, _ => .posInf
  | _, .posInf => .posInf
  | .negInf, _ => .negInf
  | _, .negInf => .negInf
  | .fin a, .fin b => .fin (a + b)

/-- BigNumber.minus -/
def BigNum.sub (a b : BigNum) : BigNum := a.add b.neg

/-- Source constant DECIMAL_PLACES = 6. -/
def DECIMAL_PLACES : Nat := 6

/-- Source constant MIN_BALANCE = 20 (the XRP reserve). -/
def MIN_BALANCE : ℚ := 20

/-- Source constant DEFAULT_MAX_LEDGER_VERSION_OFFSET = 100. -/
def DEFAULT_MAX_LEDGER_VERSION_OFFSET : Nat := 100

/-- createUnitConverters(6).toMainDenomination: divide by 10^6. -/
def toMainDenominationBig : BigNum → BigNum
  | .fin q => .fin (q / 1000000)
  | b => b

/-- createUnitConverters(6).toBaseDenomination: multiply by 10^6. -/
def toBaseDenominationBig : BigNum → BigNum
  | .fin q => .fin (q * 1000000)
  | b => b

/-- Errors thrown by the library, one constructor per distinct throw site
relevant to the claims. -/
inductive Err where
  | invalidAmount
  | selfSend
  | insufficientReserve
  | insufficientBalance
  | insufficientPayportBalance
  | missingPayportBalance
  | nanPayportBalance
  | balanceQueryWithExtraId
  | sweepInsufficientBalance
  | unsupportedFeeRateType
  | hardenedFromNeutered
  | privateKeyFromNeutered
deriving DecidableEq, Repr

/-- Remote calls issued to the ripple-lib ledger client, recorded as a trace. -/
inductive LedgerCall where
  | getBalances (address : String)
  | getFee
  | preparePayment (fromAddress toAddress : String)
deriving DecidableEq, Repr

/-- Payport: an address with an optional numeric-string sub-account tag. -/
structure Payport where
  address : String
  extraId : Option String
deriving DecidableEq, Repr

/-- One entry of rippleApi.getBalances output. -/
structure Balance where
  currency : String
  value : ℚ
deriving DecidableEq, Repr

/-- Result record of BaseRipplePayments.getBalance. -/
structure BalanceResult where
  confirmedBalance : ℚ
  unconfirmedBalance : ℚ
  sweepable : Bool
deriving DecidableEq, Repr

/-- isSweepableAddressBalance: `new BigNumber(balance).gt(0)`. -/
def isSweepableAddressBalance (balance : ℚ) : Bool := decide (0 < balance)

/-- balances.find(({ currency }) => currency === 'XRP') -/
def findXrp (balances : List Balance) : Option Balance :=
  balances.find? (fun b => b.currency == "XRP")

/-- The XRP amount of a getBalances response ('0' when no XRP entry is
present). -/
def getXrpAmount (balances : List Balance) : ℚ :=
  match findXrp balances with
  | some b => b.value
  | none => 0

/-- BaseRipplePayments.getBalance, with the ledger client's getBalances
response for the payport's address supplied as `ledgerBalances`.  A payport
with an extraId is rejected before any ledger query; otherwise the confirmed
balance is the XRP balance minus the 20 XRP reserve, and sweepability is
computed from the gross (unadjusted) XRP amount. -/
def getBalance (ledgerBalances : List Balance) (payport : Payport) :
    Except Err BalanceResult × List LedgerCall :=
  match payport.extraId with
  | some _ => (.error .balanceQueryWithExtraId, [])
  | none =>
    let xrpAmount : ℚ := getXrpAmount ledgerBalances
    (.ok ⟨xrpAmount - MIN_BALANCE, 0, isSweepableAddressBalance xrpAmount⟩,
      [.getBalances payport.address])

/-- FeeLevel values of a resolved fee option. -/
inductive FeeLevelT where
  | low
  | medium
  | high
  | custom
deriving DecidableEq, Repr

/-- FeeLevel values permitted in a level-based (non-custom) fee option. -/
inductive FeeLevelChoice where
  | low
  | medium
  | high
deriving DecidableEq, Repr

/-- FeeRateType values. -/
inductive FeeRateTypeT where
  | base
  | main
  | basePerWeight
deriving DecidableEq, Repr

/-- FeeOption input: either a custom rate with its denomination, or a fee
level (absent level defaults to medium). -/
inductive FeeOptionInput where
  | custom (feeRate : BigNum) (feeRateType : FeeRateTypeT)
  | level (feeLevel : Option FeeLevelChoice)
deriving DecidableEq, Repr

/-- Resolved fee option returned by resolveFeeOption. -/
structure ResolvedFee where
  targetFeeLevel : FeeLevelT
  targetFeeRate : BigNum
  targetFeeRateType : FeeRateTypeT
  feeMain : BigNum
  feeBase : BigNum
deriving DecidableEq, Repr

/-- Cushion multiplier table: low 1, medium 1.2, high 1.5. -/
def cushionFor : FeeLevelChoice → ℚ
  | .low => 1
  | .medium => 6 / 5
  | .high => 3 / 2

/-- FeeLevelChoice viewed as a FeeLevelT. -/
def FeeLevelChoice.toT : FeeLevelChoice → FeeLevelT
  | .low => .low
  | .medium => .medium
  | .high => .high

/-- BaseRipplePayments.resolveFeeOption, with rippleApi.getFee modelled as
the oracle `getFee` (cushion argument to human-denomination fee). -/
def resolveFeeOption (getFee : ℚ → BigNum) (input : FeeOptionInput) :
    Except Err ResolvedFee × List LedgerCall :=
  match input with
  | .custom rate rateType =>
    match rateType with
    | .base => (.ok ⟨.custom, rate, .base, toMainDenominationBig rate, rate⟩, [])
    | .main => (.ok ⟨.custom, rate, .main, rate, toBaseDenominationBig rate⟩, [])
    | .basePerWeight => (.error .unsupportedFeeRateType, [])
  | .level choice =>
    let lvl := choice.getD .medium
    let cushion := cushionFor lvl
    let feeMain := getFee cushion
    (.ok ⟨lvl.toT, feeMain, .main, feeMain, toBaseDenominationBig feeMain⟩, [.getFee])

/-- Resolved from/to pair produced by resolveFromTo (fields used by
doCreateTransaction). -/
structure FromTo where
  fromAddress : String
  fromExtraId : Option String
  toAddress : String
  toExtraId : Option String
deriving DecidableEq, Repr

/-- Unsigned transaction record produced by doCreateTransaction. -/
structure UnsignedTx where
  fromAddress : String
  fromExtraId : Option String
  toAddress : String
  toExtraId : Option String
  amount : BigNum
  targetFeeLevel : FeeLevelT
  targetFeeRate : BigNum
  targetFeeRateType : FeeRateTypeT
  fee : BigNum
deriving DecidableEq, Repr

/-- BaseRipplePayments.doCreateTransaction.  `ledgerBalances` is the ledger
client's getBalances response for the from address.  Validation order follows
the source: invalid amount, self send, reserve, total balance, payport
sub-balance; only then is preparePayment issued. -/
def doCreateTransaction (ledgerBalances : List Balance) (fromTo : FromTo)
    (feeOption : ResolvedFee) (amount payportBalance : BigNum) :
    Except Err UnsignedTx × List LedgerCall :=
  if amount.isNan || amount.ble (.fin 0) then (.error .invalidAmount, [])
  else if fromTo.fromAddress == fromTo.toAddress then (.error .selfSend, [])
  else
    match getBalance ledgerBalances ⟨fromTo.fromAddress, none⟩ with
    | (.error e, calls) => (.error e, calls)
    | (.ok balRes, calls) =>
      let addressBalance : BigNum := .fin balRes.confirmedBalance
      if addressBalance.blt (.fin 0) then (.error .insufficientReserve, calls)
      else
        let totalValue := amount.add feeOption.feeMain
        if (addressBalance.sub totalValue).blt (.fin 0) then
          (.error .insufficientBalance, calls)
        else if fromTo.fromExtraId.isSome && totalValue.bgt payportBalance then
          (.error .insufficientPayportBalance, calls)
        else
          (.ok ⟨fromTo.fromAddress, fromTo.fromExtraId, fromTo.toAddress,
              fromTo.toExtraId, amount, feeOption.targetFeeLevel,
              feeOption.targetFeeRate, feeOption.targetFeeRateType,
              feeOption.feeMain⟩,
            calls ++ [.preparePayment fromTo.fromAddress fromTo.toAddress])

/-- BaseRipplePayments.resolvePayportBalance: a bare address uses the
reserve-adjusted confirmed balance from getBalance; a sub-account payport
requires the caller-supplied payportBalance option (missing or NaN are
errors). -/
def resolvePayportBalance (ledgerBalances : List Balance) (fromPayport : Payport)
    (payportBalanceOpt : Option BigNum) : Except Err BigNum × List LedgerCall :=
  match fromPayport.extraId with
  | none =>
    match getBalance ledgerBalances fromPayport with
    | (.ok balRes, calls) => (.ok (.fin balRes.confirmedBalance), calls)
    | (.error e, calls) => (.error e, calls)
  | some _ =>
    match payportBalanceOpt with
    | none => (.error .missingPayportBalance, [])
    | some pb => if pb.isNan then (.error .nanPayportBalance, []) else (.ok pb, [])

/-- BaseRipplePayments.createTransaction: resolve fee, resolve payport
balance, then doCreateTransaction. -/
def createTransaction (ledgerBalances : List Balance) (getFee : ℚ → BigNum)
    (fromTo : FromTo) (feeInput : FeeOptionInput)
    (payportBalanceOpt : Option BigNum) (amount : BigNum) :
    Except Err UnsignedTx × List LedgerCall :=
  match resolveFeeOption getFee feeInput with
  | (.error e, calls) => (.error e, calls)
  | (.ok feeOption, calls1) =>
    match resolvePayportBalance ledgerBalances
        ⟨fromTo.fromAddress, fromTo.fromExtraId⟩ payportBalanceOpt with
    | (.error e, calls2) => (.error e, calls1 ++ calls2)
    | (.ok payportBalance, calls2) =>
      let r := doCreateTransaction ledgerBalances fromTo feeOption amount payportBalance
      (r.1, calls1 ++ calls2 ++ r.2)

/-- BaseRipplePayments.createSweepTransaction: sweep amount is
payportBalance minus feeMain; a negative amount fails before
doCreateTransaction (hence before any preparePayment). -/
def createSweepTransaction (ledgerBalances : List Balance) (getFee : ℚ → BigNum)
    (fromTo : FromTo) (feeInput : FeeOptionInput)
    (payportBalanceOpt : Option BigNum) :
    Except Err UnsignedTx × List LedgerCall :=
  match resolveFeeOption getFee feeInput with
  | (.error e, calls) => (.error e, calls)
  | (.ok feeOption, calls1) =>
    match resolvePayportBalance ledgerBalances
        ⟨fromTo.fromAddress, fromTo.fromExtraId⟩ payportBalanceOpt with
    | (.error e, calls2) => (.error e, calls1 ++ calls2)
    | (.ok payportBalance, calls2) =>
      let amountBn := payportBalance.sub feeOption.feeMain
      if amountBn.blt (.fin 0) then
        (.error .sweepInsufficientBalance, calls1 ++ calls2)
      else
        let r := doCreateTransaction ledgerBalances fromTo feeOption amountBn payportBalance
        (r.1, calls1 ++ calls2 ++ r.2)

/-- Test whether a ledger call is a preparePayment. -/
def LedgerCall.isPrepare : LedgerCall → Bool
  | .preparePayment _ _ => true
  | _ => false

/-- Little-endian base-`b` digit expansion with fuel (fuel `n` suffices for
input `n`); agrees with `Nat.digits` for positive inputs. -/
def digitsAux (b : Nat) : Nat → Nat → List Nat
  | 0, _ => []
  | fuel + 1, n => if n = 0 then [] else n % b :: digitsAux b fuel (n / b)

/-- Decimal digit character. -/
def decChar (d : Nat) : Char := Char.ofNat (48 + d)

/-- Character list of the Javascript decimal rendering String(n). -/
def decChars (n : Nat) : List Char :=
  if n = 0 then ['0'] else ((digitsAux 10 n n).reverse).map decChar

/-- Javascript String(n) for a natural number. -/
def decString (n : Nat) : String := ⟨decChars n⟩

/-- Source helper padLeft, with fuel `n` (the target width) bounding the
number of loop iterations; faithful for any non-empty pad string `v`. -/
def padLeftAux (v : String) (n : Nat) : Nat → String → String
  | 0, x => x
  | fuel + 1, x => if x.length < n then padLeftAux v n fuel (v ++ x) else x

/-- Source helper padLeft: prepend copies of `v` until length `n` is
reached. -/
def padLeft (x : String) (n : Nat) (v : String) : String := padLeftAux v n n x

/-- Signatory as used by payport resolution (only the address matters
there). -/
structure Signatory where
  address : String
deriving DecidableEq, Repr

/-- BaseRipplePayments.doGetPayport: index 0 is the hot signatory's bare
address, index 1 the deposit signatory's bare address, any other index the
deposit address with the stringified index as extraId. -/
def doGetPayport (hot deposit : Signatory) (index : Nat) : Payport :=
  if index == 0 then ⟨hot.address, none⟩
  else if index == 1 then ⟨deposit.address, none⟩
  else ⟨deposit.address, some (decString index)⟩

/-- Balance-change adjustment (address plus optional destination tag). -/
structure Adjustment where
  address : String
  tag : Option Nat
deriving DecidableEq, Repr

/-- BaseRipplePayments.resolveIndexFromAdjustment.  The source computes
`tag || 1`; a tag of 0 is falsy in Javascript and therefore also yields 1. -/
def resolveIndexFromAdjustment (hot deposit : Signatory) (adjustment : Adjustment) :
    Option Nat :=
  if adjustment.address == hot.address then some 0
  else if adjustment.address == deposit.address then
    some (match adjustment.tag with
      | some t => if t = 0 then 1 else t
      | none => 1)
  else none

/-- Source constant CONNECTION_ERRORS (error constructor names classified as
connection errors). -/
def CONNECTION_ERRORS : List String :=
  ["ConnectionError", "NotConnectedError", "DisconnectedError"]

/-- Source constant RETRYABLE_ERRORS = CONNECTION_ERRORS plus TimeoutError. -/
def RETRYABLE_ERRORS : List String := CONNECTION_ERRORS ++ ["TimeoutError"]

/-- Source constant MAX_RETRIES = 3 (promise-retry `retries` option, i.e. up
to 3 retries after the initial attempt, 4 invocations in total). -/
def MAX_RETRIES : Nat := 3

/-- Observable outcome of a retryIfDisconnected run: final result, number of
invocations of the wrapped operation, and number of reconnect
(rippleApi.connect) calls. -/
structure RetryOutcome (α : Type) where
  result : Except String α
  fnCalls : Nat
  reconnects : Nat
deriving Repr

/-- One attempt round of retryIfDisconnected under promise-retry semantics.
`fn i` is the outcome of the i-th invocation (errors are identified by their
constructor name, as the source classifies them by name).  On a retryable
error the handler reconnects first when the error is connection-classified,
then calls retry, which re-runs the operation while retries remain and
otherwise rethrows the error. -/
def retryAttempts {α : Type} (fn : Nat → Except String α) :
    Nat → Nat → RetryOutcome α
  | attempt, retriesLeft =>
    match fn attempt with
    | .ok a => ⟨.ok a, 1, 0⟩
    | .error e =>
      if RETRYABLE_ERRORS.contains e then
        let rc := if CONNECTION_ERRORS.contains e then 1 else 0
        match retriesLeft with
        | 0 => ⟨.error e, 1, rc⟩
        | n + 1 =>
          let rest := retryAttempts fn (attempt + 1) n
          ⟨rest.result, rest.fnCalls + 1, rest.reconnects + rc⟩
      else ⟨.error e, 1, 0⟩

/-- retryIfDisconnected: promiseRetry(fn, 3 retries), attempts numbered
from 1. -/
def retryIfDisconnected {α : Type} (fn : Nat → Except String α) : RetryOutcome α :=
  retryAttempts fn 1 MAX_RETRIES

/-- Minimal transaction view used by the pagination loop of
retrieveBalanceActivities. -/
structure TxStub where
  id : Nat
  ledgerVersion : Nat
deriving DecidableEq, Repr

/-- Pagination loop of RippleBalanceMonitor.retrieveBalanceActivities.
The ledger client is modelled as a finite earliest-first transaction list;
each getTransactions page takes up to `limit` = 10 transactions after the
cursor (the claim's assumption that pages advance past the cursor).  Returns
the number of executed iterations, or none when the fuel runs out before the
loop exits. -/
def retrieveLoop (upto : Nat) : Nat → List TxStub → Option Nat
  | 0, _ => none
  | fuel + 1, rest =>
    let transactions := rest.take 10
    match transactions.getLast? with
    | none => some 1
    | some lastTx =>
      if transactions.length = 10 && lastTx.ledgerVersion ≤ upto then
        Option.map Nat.succ (retrieveLoop upto fuel (rest.drop 10))
      else some 1

/-- Bip32 extended key node: depth, public key bytes, optional private key
bytes; a neutered (public-only) node carries no private key. -/
structure HDNode where
  depth : Nat
  pubKeyBytes : List Nat
  privKeyBytes : Option (List Nat)
deriving DecidableEq, Repr

/-- Oracles for the external cryptography: bip32 child-key computation and
the sha256/ripemd160 hash functions. -/
structure HdOps where
  childPub : HDNode → Nat → List Nat
  childPriv : HDNode → Nat → List Nat
  sha256 : List Nat → List Nat
  ripemd160 : List Nat → List Nat

/-- bip32 isNeutered(): no private key material. -/
def HDNode.isNeutered (k : HDNode) : Bool := k.privKeyBytes.isNone

/-- bip32 non-hardened derive: always succeeds; the child has a private key
exactly when the parent does. -/
def HDNode.derive (ops : HdOps) (k : HDNode) (i : Nat) : HDNode :=
  { depth := k.depth + 1
    pubKeyBytes := ops.childPub k i
    privKeyBytes := k.privKeyBytes.map (fun _ => ops.childPriv k i) }

/-- bip32 hardened derive: throws on a neutered node (missing private key
for hardened child key). -/
def HDNode.deriveHardened (ops : HdOps) (k : HDNode) (i : Nat) : Except Err HDNode :=
  if k.isNeutered then .error .hardenedFromNeutered
  else .ok (k.derive ops (i + 2 ^ 31))

/-- Hardened child indices of the fixed derivation path m/44'/144'/0'. -/
def derivationPathIndices : List Nat := [44, 144, 0]

/-- Source deriveBasePath: apply only the path components remaining below
the key's current depth (all of them hardened). -/
def deriveBasePath (ops : HdOps) (key : HDNode) : Except Err HDNode :=
  (derivationPathIndices.drop key.depth).foldlM (fun k i => k.deriveHardened ops i) key

/-- Lowercase hexadecimal digit characters. -/
def hexChars : List Char := "0123456789abcdef".data

/-- Two lowercase hex characters of one byte (Buffer.toString('hex')). -/
def byteHex (b : Nat) : List Char := [hexChars.getD (b / 16 % 16) '0', hexChars.getD (b % 16) '0']

/-- Buffer.toString('hex'): lowercase hex rendering of a byte list. -/
def hexString (bytes : List Nat) : String := ⟨bytes.foldr (fun b acc => byteHex b ++ acc) []⟩

/-- Javascript String.prototype.toUpperCase restricted to ASCII. -/
def toUpperString (s : String) : String := ⟨s.data.map Char.toUpper⟩

/-- Value of one hexadecimal character (either case). -/
def hexVal (c : Char) : Nat :=
  if 48 ≤ c.toNat && c.toNat ≤ 57 then c.toNat - 48
  else if 65 ≤ c.toNat && c.toNat ≤ 70 then c.toNat - 55
  else if 97 ≤ c.toNat && c.toNat ≤ 102 then c.toNat - 87
  else 0

/-- Buffer.from(hex, 'hex'): parse pairs of hex characters into bytes. -/
def hexToBytes : List Char → List Nat
  | c1 :: c2 :: rest => (16 * hexVal c1 + hexVal c2) :: hexToBytes rest
  | _ => []

/-- Source hdNodeToPublicKey: 66-character zero-padded uppercase hex of the
compressed public key. -/
def hdNodeToPublicKey (key : HDNode) : String :=
  toUpperString (padLeft (hexString key.pubKeyBytes) 66 "0")

/-- Source hdNodeToPrivateKey: throws on a neutered or keyless node, else
the 64-character zero-padded uppercase hex of the private key. -/
def hdNodeToPrivateKey (key : HDNode) : Except Err String :=
  if key.isNeutered then .error .privateKeyFromNeutered
  else
    match key.privKeyBytes with
    | none => .error .privateKeyFromNeutered
    | some bytes => .ok (toUpperString (padLeft (hexString bytes) 64 "0"))

/-- Ripple's custom base-58 alphabet (source RIPPLE_B58_DICT). -/
def RIPPLE_B58_DICT : String := "rpshnaf39wBUDNEGHJKLM4PQRST7VWXYZ2bcdeCg65jkm8oFqi1tuvAxyz"

/-- Character of one base-58 digit in the ripple alphabet. -/
def b58Char (d : Nat) : Char := RIPPLE_B58_DICT.data.getD d 'r'

/-- Number of leading zero bytes. -/
def leadingZeroCount : List Nat → Nat
  | [] => 0
  | b :: bs => if b = 0 then leadingZeroCount bs + 1 else 0

/-- Big-endian byte-list value. -/
def byteListVal (bytes : List Nat) : Nat := bytes.foldl (fun a b => a * 256 + b) 0

/-- base-x encode with the ripple alphabet: one leading-alphabet character
per leading zero byte, then the base-58 digits of the remaining value. -/
def base58Encode (bytes : List Nat) : String :=
  let z := leadingZeroCount bytes
  let n := byteListVal bytes
  ⟨List.replicate z (b58Char 0) ++ ((digitsAux 58 n n).reverse).map b58Char⟩

/-- Source publicKeyToAddress: accountId = RIPEMD160(SHA256(pubkey bytes)),
versioned with prefix byte 0x00, checksummed with the first 4 bytes of a
double SHA256, then base-58 encoded with the ripple alphabet. -/
def publicKeyToAddress (ops : HdOps) (pubkeyHex : String) : String :=
  let pubkeyBuffer := hexToBytes pubkeyHex.data
  let accountId := ops.ripemd160 (ops.sha256 pubkeyBuffer)
  let payload := 0 :: accountId
  let checksum := (ops.sha256 (ops.sha256 payload)).take 4
  base58Encode (payload ++ checksum)

/-- Signatory record returned by deriveSignatory. -/
structure DerivedSignatory where
  address : String
  secretPrivateKey : String
  secretPublicKey : String
deriving DecidableEq, Repr

/-- Source deriveSignatory: apply the remaining base path, derive child 0
then the index, render the private key ('' when neutered) and the address. -/
def deriveSignatory (ops : HdOps) (hdKey : HDNode) (index : Nat) :
    Except Err DerivedSignatory :=
  match deriveBasePath ops hdKey with
  | .error e => .error e
  | .ok base =>
    let derived := (base.derive ops 0).derive ops index
    let privateKeyE : Except Err String :=
      if derived.isNeutered then .ok "" else hdNodeToPrivateKey derived
    match privateKeyE with
    | .error e => .error e
    | .ok privateKey =>
      let publicKey := hdNodeToPublicKey derived
      .ok ⟨publicKeyToAddress ops publicKey, privateKey, publicKey⟩

/-- Character class of the source ADDRESS_REGEX body:
[1-9A-HJ-NP-Za-km-z]. -/
def addressBodyChar (c : Char) : Bool :=
  (decide ('1' ≤ c) && decide (c ≤ '9')) || (decide ('A' ≤ c) && decide (c ≤ 'H')) ||
  (decide ('J' ≤ c) && decide (c ≤ 'N')) || (decide ('P' ≤ c) && decide (c ≤ 'Z')) ||
  (decide ('a' ≤ c) && decide (c ≤ 'k')) || (decide ('m' ≤ c) && decide (c ≤ 'z'))

/-- Source isValidAddress: the ADDRESS_REGEX ^r[1-9A-HJ-NP-Za-km-z]{25,34}$. -/
def isValidAddress (address : String) : Bool :=
  match address.data with
  | [] => false
  | c :: rest =>
    c == 'r' && decide (25 ≤ rest.length) && decide (rest.length ≤ 34) &&
      rest.all addressBodyChar

/-- Ledger header data returned by rippleApi.getLedger. -/
structure LedgerInfo where
  ledgerHash : String
  closeTime : Nat
deriving DecidableEq, Repr

/-- One entry of outcome.balanceChanges for an address. -/
structure TxBalanceChange where
  currency : String
  value : ℚ
deriving DecidableEq, Repr

/-- Transaction outcome as delivered by ripple-lib. -/
structure TxOutcome where
  result : String
  ledgerVersion : Nat
  indexInLedger : Nat
  balanceChanges : List (String × List TxBalanceChange)
deriving DecidableEq, Repr

/-- Transaction record consumed by txToBalanceActivity. -/
structure RippleTx where
  id : String
  txType : String
  sourceTag : Option Nat
  destinationTag : Option Nat
  outcome : Option TxOutcome
deriving DecidableEq, Repr

/-- Balance activity record produced by txToBalanceActivity. -/
structure BalanceActivity where
  activityType : String
  networkSymbol : String
  assetSymbol : String
  address : String
  extraId : Option String
  amount : ℚ
  externalId : String
  activitySequence : String
  confirmationId : String
  confirmationNumber : Nat
deriving DecidableEq, Repr

/-- RippleBalanceMonitor.isPaymentTx. -/
def isPaymentTx (tx : RippleTx) : Bool := tx.txType == "payment"

/-- Javascript String.prototype.startsWith. -/
def strStartsWith (s pre : String) : Bool := pre.data.isPrefixOf s.data

/-- XRP entry of outcome.balanceChanges[address] (empty list when the
address has no entry): the source's
`(tx.outcome.balanceChanges[address] || []).find(c => c.currency === 'XRP')`. -/
def xrpBalanceChange (outcome : TxOutcome) (address : String) : Option TxBalanceChange :=
  (match outcome.balanceChanges.find?
      (fun (p : String × List TxBalanceChange) => p.fst == address) with
    | some p => p.snd
    | none => ([] : List TxBalanceChange)).find? (fun c => c.currency == "XRP")

/-- RippleBalanceMonitor.txToBalanceActivity, with rippleApi.getLedger as
the oracle `getLedger`.  Balance-change values are rationals; the source's
test `amount.startsWith('-')` on the formatted value is `value < 0`. -/
def txToBalanceActivity (getLedger : Nat → LedgerInfo) (address : String)
    (tx : RippleTx) : Option BalanceActivity :=
  match tx.outcome with
  | none => none
  | some outcome =>
    if !(strStartsWith outcome.result "tes" || strStartsWith outcome.result "tec") then
      none
    else
      let confirmationNumber := outcome.ledgerVersion
      let primarySequence := padLeft (decString outcome.ledgerVersion) 12 "0"
      let secondarySequence := padLeft (decString outcome.indexInLedger) 8 "0"
      let ledger := getLedger confirmationNumber
      match xrpBalanceChange outcome address with
      | none => none
      | some balanceChange =>
        let amount := balanceChange.value
        let amountNeg := decide (amount < 0)
        let activityType := if amountNeg then "out" else "in"
        let tag :=
          if isPaymentTx tx then
            (if amountNeg then tx.sourceTag else tx.destinationTag)
          else none
        let tertiarySequence := if amountNeg then "00" else "01"
        let activitySequence :=
          primarySequence ++ "." ++ secondarySequence ++ "." ++ tertiarySequence
        some
          { activityType
            networkSymbol := "XRP"
            assetSymbol := balanceChange.currency
            address
            extraId := tag.map decString
            amount
            externalId := tx.id
            activitySequence
            confirmationId := ledger.ledgerHash
            confirmationNumber }

/-- Activity sequence string layout shared by both legs of a ledger entry
(used to state ordering facts). -/
def seqString (lv idx : Nat) (isOut : Bool) : String :=
  padLeft (decString lv) 12 "0" ++ "." ++ padLeft (decString idx) 8 "0" ++ "." ++
    (if isOut then "00" else "01")

/-- Numeric value of a decimal digit character. -/
def charDigitVal (c : Char) : Nat := c.toNat - 48

/-- Test for a decimal digit character. -/
def isDigitChar (c : Char) : Bool := decide (48 ≤ c.toNat) && decide (c.toNat ≤ 57)

/-- Big-endian decimal value of a digit-character list. -/
def valC : List Char → Nat
  | [] => 0
  | c :: cs => charDigitVal c * 10 ^ cs.length + valC cs

/-- C5: payport resolution by numeric index: index 0 is the hot signatory's
address without extraId, index 1 the deposit signatory's address without
extraId, and every index at least 2 the deposit signatory's address with the
decimal string of the index as extraId. -/
theorem c5_payport_indices (hot deposit : Signatory) (index : Nat) (h : 2 ≤ index) :
    doGetPayport hot deposit 0 = ⟨hot.address, none⟩ ∧
    doGetPayport hot deposit 1 = ⟨deposit.address, none⟩ ∧
    doGetPayport hot deposit index = ⟨deposit.address, some (decString index)⟩ := by
  refine ⟨rfl, rfl, ?_⟩
  have h0 : (index == 0) = false := by simp only [beq_eq_false_iff_ne]; omega
  have h1 : (index == 1) = false := by simp only [beq_eq_false_iff_ne]; omega
  simp [doGetPayport, h0, h1]

/-- Witness for C5 at index 5. -/
theorem c5_payport_indices_witness :
    2 ≤ 5 ∧
      doGetPayport ⟨"rHot"⟩ ⟨"rDep"⟩ 5 = ⟨"rDep", some "5"⟩ := by
  refine ⟨by decide, ?_⟩
  have h := (c5_payport_indices ⟨"rHot"⟩ ⟨"rDep"⟩ 5 (by decide)).2.2
  exact h.trans (by decide)

/-- C6 counterexample: with distinct hot and deposit addresses and a present
destination tag 0, resolveIndexFromAdjustment returns 1, not the tag (0 is
falsy in Javascript, so `tag || 1` evaluates to 1). -/
theorem c6_counterexample :
    resolveIndexFromAdjustment ⟨"rHot"⟩ ⟨"rDep"⟩ ⟨"rDep", some 0⟩ = some 1 ∧
      (⟨"rDep", some 0⟩ : Adjustment).tag = some 0 ∧
      (⟨"rDep", some 0⟩ : Adjustment).address ≠ (⟨"rHot"⟩ : Signatory).address ∧
      some 1 ≠ some (0 : Nat) := by
  refine ⟨by decide, rfl, by decide, by decide⟩

/-- C6 (amended): resolveIndexFromAdjustment returns 0 when the address
equals the hot signatory's address; when the address instead equals the
deposit signatory's address it returns the tag if present and nonzero and 1
otherwise (a zero tag is falsy and yields 1); any other address gives none.
In particular the deposit address with tag 42 resolves to 42. -/
theorem c6_resolve_index (hot deposit : Signatory) (adjustment : Adjustment) :
    (adjustment.address = hot.address →
      resolveIndexFromAdjustment hot deposit adjustment = some 0) ∧
    (adjustment.address ≠ hot.address → adjustment.address = deposit.address →
      ∀ t, adjustment.tag = some t → t ≠ 0 →
        resolveIndexFromAdjustment hot deposit adjustment = some t) ∧
    (adjustment.address ≠ hot.address → adjustment.address = deposit.address →
      adjustment.tag = none →
        resolveIndexFromAdjustment hot deposit adjustment = some 1) ∧
    (adjustment.address ≠ hot.address → adjustment.address = deposit.address →
      adjustment.tag = some 0 →
        resolveIndexFromAdjustment hot deposit adjustment = some 1) ∧
    (adjustment.address ≠ hot.address → adjustment.address ≠ deposit.address →
      resolveIndexFromAdjustment hot deposit adjustment = none) := by
  refine ⟨?_, ?_, ?_, ?_, ?_⟩
  · intro h
    simp [resolveIndexFromAdjustment, h]
  · intro h1 h2 t ht htz
    have h1' : deposit.address ≠ hot.address := fun hh => h1 (h2.trans hh)
    simp [resolveIndexFromAdjustment, h2, h1', ht, htz]
  · intro h1 h2 ht
    have h1' : deposit.address ≠ hot.address := fun hh => h1 (h2.trans hh)
    simp [resolveIndexFromAdjustment, h2, h1', ht]
  · intro h1 h2 ht
    have h1' : deposit.address ≠ hot.address := fun hh => h1 (h2.trans hh)
    simp [resolveIndexFromAdjustment, h2, h1', ht]
  · intro h1 h2
    simp [resolveIndexFromAdjustment, h1, h2]

/-- Witness for C6: the deposit address with tag 42 resolves to index 42,
and an uncontrolled address resolves to none. -/
theorem c6_resolve_index_witness :
    resolveIndexFromAdjustment ⟨"rHot"⟩ ⟨"rDep"⟩ ⟨"rDep", some 42⟩ = some 42 ∧
      resolveIndexFromAdjustment ⟨"rHot"⟩ ⟨"rDep"⟩ ⟨"rOther", none⟩ = none := by
  constructor
  · exact (c6_resolve_index ⟨"rHot"⟩ ⟨"rDep"⟩ ⟨"rDep", some 42⟩).2.1
      (by decide) rfl 42 rfl (by decide)
  · exact (c6_resolve_index ⟨"rHot"⟩ ⟨"rDep"⟩ ⟨"rOther", none⟩).2.2.2.2
      (by decide) (by decide)

/-- C7: fee resolution.  Custom mode copies the supplied rate into its
denomination and fills the other by the fixed 6-decimal-place unit
conversion; an unrecognized rate type is an error.  Tiered mode maps
low, medium (the default when no level is given) and high to cushions 1,
1.2 and 1.5, passes the cushion to the ledger client's getFee, uses the
returned human-denomination fee as feeMain and targetFeeRate, and converts
it to atomic units for feeBase. -/
theorem c7_fee_resolution (getFee : ℚ → BigNum) (rate : BigNum) (q : ℚ) :
    resolveFeeOption getFee (.custom rate .base) =
      (.ok ⟨.custom, rate, .base, toMainDenominationBig rate, rate⟩, []) ∧
    resolveFeeOption getFee (.custom rate .main) =
      (.ok ⟨.custom, rate, .main, rate, toBaseDenominationBig rate⟩, []) ∧
    resolveFeeOption getFee (.custom rate .basePerWeight) =
      (.error .unsupportedFeeRateType, []) ∧
    resolveFeeOption getFee (.level (some .low)) =
      (.ok ⟨.low, getFee 1, .main, getFee 1, toBaseDenominationBig (getFee 1)⟩,
        [.getFee]) ∧
    resolveFeeOption getFee (.level (some .medium)) =
      (.ok ⟨.medium, getFee (6 / 5), .main, getFee (6 / 5),
          toBaseDenominationBig (getFee (6 / 5))⟩, [.getFee]) ∧
    resolveFeeOption getFee (.level (some .high)) =
      (.ok ⟨.high, getFee (3 / 2), .main, getFee (3 / 2),
          toBaseDenominationBig (getFee (3 / 2))⟩, [.getFee]) ∧
    resolveFeeOption getFee (.level none) =
      resolveFeeOption getFee (.level (some .medium)) ∧
    toMainDenominationBig (.fin q) = .fin (q / 1000000) ∧
    toBaseDenominationBig (.fin q) = .fin (q * 1000000) :=
  ⟨rfl, rfl, rfl, rfl, rfl, rfl, rfl, rfl, rfl⟩

/-- C10: getBalance of a sub-account payport (extraId present) fails before
any ledger query; for a bare address the confirmed balance is the XRP
balance minus the 20 XRP reserve while sweepability is computed from the
gross balance, so an address holding strictly between 0 and 20 XRP is
sweepable with a negative confirmed balance. -/
theorem c10_get_balance (ledgerBalances : List Balance) (payport : Payport) :
    (∀ e, payport.extraId = some e →
      getBalance ledgerBalances payport = (.error .balanceQueryWithExtraId, [])) ∧
    (payport.extraId = none →
      getBalance ledgerBalances payport =
        (.ok ⟨getXrpAmount ledgerBalances - MIN_BALANCE, 0,
            isSweepableAddressBalance (getXrpAmount ledgerBalances)⟩,
          [.getBalances payport.address])) ∧
    (payport.extraId = none → 0 < getXrpAmount ledgerBalances →
      getXrpAmount ledgerBalances < 20 →
      ∃ res, getBalance ledgerBalances payport =
          (.ok res, [.getBalances payport.address]) ∧
        res.sweepable = true ∧ res.confirmedBalance < 0) := by
  refine ⟨?_, ?_, ?_⟩
  · intro e he
    simp [getBalance, he]
  · intro he
    simp [getBalance, he]
  · intro he hpos hlt
    refine ⟨⟨getXrpAmount ledgerBalances - MIN_BALANCE, 0,
      isSweepableAddressBalance (getXrpAmount ledgerBalances)⟩, by simp [getBalance, he], ?_, ?_⟩
    · simp [isSweepableAddressBalance, hpos]
    · simp only [MIN_BALANCE]
      linarith

/-- Witness for C10: an address holding 5 XRP is sweepable with confirmed
balance -15, and a sub-account payport is rejected. -/
theorem c10_get_balance_witness :
    (∃ res, getBalance [⟨"XRP", 5⟩] ⟨"rAddr", none⟩ =
        (.ok res, [.getBalances "rAddr"]) ∧
      res.sweepable = true ∧ res.confirmedBalance < 0) ∧
    getBalance [⟨"XRP", 5⟩] ⟨"rAddr", some "3"⟩ =
      (.error .balanceQueryWithExtraId, []) := by
  constructor
  · exact (c10_get_balance [⟨"XRP", 5⟩] ⟨"rAddr", none⟩).2.2 rfl (by decide) (by decide)
  · exact (c10_get_balance [⟨"XRP", 5⟩] ⟨"rAddr", some "3"⟩).1 "3" rfl

theorem mem_retryable_of_conn {e : String} (h : CONNECTION_ERRORS.contains e = true) :
    RETRYABLE_ERRORS.contains e = true := by
  have hm : e ∈ CONNECTION_ERRORS := by simpa using h
  have : e ∈ RETRYABLE_ERRORS := List.mem_append_left _ hm
  simpa using this

theorem retryAttempts_eq {α : Type} (fn : Nat → Except String α) (attempt retriesLeft : Nat) :
    retryAttempts fn attempt retriesLeft =
      match fn attempt with
      | .ok a => ⟨.ok a, 1, 0⟩
      | .error e =>
        if RETRYABLE_ERRORS.contains e then
          let rc := if CONNECTION_ERRORS.contains e then 1 else 0
          match retriesLeft with
          | 0 => ⟨.error e, 1, rc⟩
          | n + 1 =>
            let rest := retryAttempts fn (attempt + 1) n
            ⟨rest.result, rest.fnCalls + 1, rest.reconnects + rc⟩
        else ⟨.error e, 1, 0⟩ := by
  rw [retryAttempts]

theorem retryAttempts_conn {α : Type} (fn : Nat → Except String α)
    (h : ∀ i, ∃ err, fn i = .error err ∧ CONNECTION_ERRORS.contains err = true) :
    ∀ n attempt,
      (retryAttempts fn attempt n).fnCalls = n + 1 ∧
      (retryAttempts fn attempt n).reconnects = n + 1 ∧
      ∃ err, fn (attempt + n) = .error err ∧
        (retryAttempts fn attempt n).result = .error err := by
  intro n
  induction n with
  | zero =>
    intro attempt
    obtain ⟨e, he, hc⟩ := h attempt
    have hr := mem_retryable_of_conn hc
    rw [retryAttempts_eq, he]
    simp only [hr, hc, if_true]
    refine ⟨by simp, by simp, e, by simpa using he, by simp⟩
  | succ n ih =>
    intro attempt
    obtain ⟨e, he, hc⟩ := h attempt
    have hr := mem_retryable_of_conn hc
    obtain ⟨ihc, ihr, err, herr, hres⟩ := ih (attempt + 1)
    refine ⟨?_, ?_, err, ?_, ?_⟩
    · rw [retryAttempts_eq, he]
      simp only [hr, hc, if_true]
      simp [ihc]
    · rw [retryAttempts_eq, he]
      simp only [hr, hc, if_true]
      simp [ihr]
    · have harith : attempt + (n + 1) = attempt + 1 + n := by omega
      rw [harith]
      exact herr
    · rw [retryAttempts_eq, he]
      simp only [hr, hc, if_true]
      simpa using hres

theorem retryAttempts_timeout {α : Type} (fn : Nat → Except String α)
    (h : ∀ i, fn i = .error "TimeoutError") :
    ∀ n attempt, retryAttempts fn attempt n = ⟨.error "TimeoutError", n + 1, 0⟩ := by
  have h1 : "TimeoutError" ∈ RETRYABLE_ERRORS := by decide
  have h2 : "TimeoutError" ∉ CONNECTION_ERRORS := by decide
  intro n
  induction n with
  | zero =>
    intro attempt
    rw [retryAttempts_eq, h attempt]
    simp [h1, h2]
  | succ n ih =>
    intro attempt
    rw [retryAttempts_eq, h attempt]
    simp [h1, h2, ih (attempt + 1)]

/-- C4 (amended): under promise-retry with the retries option 3, a wrapped
operation that always fails with a connection-classified error is invoked 4
times (1 initial attempt plus 3 retries); the handler reconnects after every
failed invocation, including the final one, so reconnect is invoked exactly
4 times, and the last error is re-thrown.  An operation that always fails
with the timeout-classified error is likewise invoked 4 times but never
triggers a reconnect.  A fatal (non-retryable) error propagates after a
single invocation with no reconnect. -/
theorem c4_retry (α : Type) (fn : Nat → Except String α) (e : String) :
    ((∀ i, ∃ err, fn i = .error err ∧ CONNECTION_ERRORS.contains err = true) →
      (retryIfDisconnected fn).fnCalls = 4 ∧
      (retryIfDisconnected fn).reconnects = 4 ∧
      ∃ err, fn 4 = .error err ∧ (retryIfDisconnected fn).result = .error err) ∧
    ((∀ i, fn i = .error "TimeoutError") →
      retryIfDisconnected fn = ⟨.error "TimeoutError", 4, 0⟩) ∧
    (fn 1 = .error e → RETRYABLE_ERRORS.contains e = false →
      retryIfDisconnected fn = ⟨.error e, 1, 0⟩) := by
  refine ⟨?_, ?_, ?_⟩
  · intro h
    obtain ⟨hc, hr, err, herr, hres⟩ := retryAttempts_conn fn h 3 1
    exact ⟨hc, hr, err, herr, hres⟩
  · intro h
    exact retryAttempts_timeout fn h 3 1
  · intro he hfat
    have hm : e ∉ RETRYABLE_ERRORS := by simpa using hfat
    unfold retryIfDisconnected MAX_RETRIES
    rw [retryAttempts_eq, he]
    simp [hm]

/-- C4 counterexample: an operation that always throws DisconnectedError
(connection-classified) leads to exactly 4 reconnect invocations, not 3 as
the claim states. -/
theorem c4_counterexample :
    (retryIfDisconnected (fun _ => Except.error (α := Unit) "DisconnectedError")).reconnects = 4 ∧
      (4 : Nat) ≠ 3 := by
  constructor
  · decide
  · decide

/-- Witness for C4: concrete runs for the connection, timeout and fatal
cases. -/
theorem c4_retry_witness :
    ((retryIfDisconnected (fun _ => Except.error (α := Unit) "NotConnectedError")).fnCalls = 4 ∧
      (retryIfDisconnected (fun _ => Except.error (α := Unit) "NotConnectedError")).reconnects = 4 ∧
      ∃ err, (fun _ => Except.error (α := Unit) "NotConnectedError") 4 = .error err ∧
        (retryIfDisconnected (fun _ => Except.error (α := Unit) "NotConnectedError")).result =
          .error err) ∧
    retryIfDisconnected (fun _ => Except.error (α := Unit) "TimeoutError") =
      ⟨.error "TimeoutError", 4, 0⟩ ∧
    retryIfDisconnected (fun _ => Except.error (α := Unit) "SomeFatalError") =
      ⟨.error "SomeFatalError", 1, 0⟩ := by
  refine ⟨?_, ?_, ?_⟩
  · exact (c4_retry Unit (fun _ => Except.error "NotConnectedError") "x").1
      (fun i => ⟨"NotConnectedError", rfl, by decide⟩)
  · exact (c4_retry Unit (fun _ => Except.error "TimeoutError") "x").2.1 (fun i => rfl)
  · exact (c4_retry Unit (fun _ => Except.error "SomeFatalError") "SomeFatalError").2.2
      rfl (by decide)

theorem retrieveLoop_fuel_eq (upto : Nat) :
    ∀ (n : Nat) (txs : List TxStub), txs.length ≤ n →
      ∀ f1 f2, txs.length < f1 → txs.length < f2 →
        retrieveLoop upto f1 txs = retrieveLoop upto f2 txs := by
  intro n
  induction n with
  | zero =>
    intro txs hlen f1 f2 h1 h2
    have htxs : txs = [] := List.length_eq_zero.mp (Nat.le_zero.mp hlen)
    subst htxs
    obtain ⟨m1, rfl⟩ := Nat.exists_eq_succ_of_ne_zero (by omega : f1 ≠ 0)
    obtain ⟨m2, rfl⟩ := Nat.exists_eq_succ_of_ne_zero (by omega : f2 ≠ 0)
    simp [retrieveLoop]
  | succ n ih =>
    intro txs hlen f1 f2 h1 h2
    obtain ⟨m1, rfl⟩ := Nat.exists_eq_succ_of_ne_zero (by omega : f1 ≠ 0)
    obtain ⟨m2, rfl⟩ := Nat.exists_eq_succ_of_ne_zero (by omega : f2 ≠ 0)
    simp only [retrieveLoop]
    cases hlast : (txs.take 10).getLast? with
    | none => rfl
    | some lastTx =>
      by_cases hA : (txs.take 10).length = 10
      · by_cases hB : lastTx.ledgerVersion ≤ upto
        · have h10 : txs.length ≥ 10 := by
            have := List.length_take 10 txs
            omega
          have hrec : (txs.drop 10).length = txs.length - 10 := by simp
          have hdn : (txs.drop 10).length ≤ n := by rw [hrec]; omega
          have hd1 : (txs.drop 10).length < m1 := by rw [hrec]; omega
          have hd2 : (txs.drop 10).length < m2 := by rw [hrec]; omega
          have heq := ih (txs.drop 10) hdn m1 m2 hd1 hd2
          simp [hA, hB, heq]
        · simp [hA, hB]
      · have hA2 : ¬ 10 ≤ txs.length := by simpa using hA
        simp [hA2]

theorem retrieveLoop_isSome (upto : Nat) :
    ∀ (n : Nat) (txs : List TxStub), txs.length ≤ n →
      ∀ fuel, txs.length < fuel → (retrieveLoop upto fuel txs).isSome = true := by
  intro n
  induction n with
  | zero =>
    intro txs hlen fuel hfuel
    have htxs : txs = [] := List.length_eq_zero.mp (Nat.le_zero.mp hlen)
    subst htxs
    obtain ⟨m, rfl⟩ := Nat.exists_eq_succ_of_ne_zero (by omega : fuel ≠ 0)
    simp [retrieveLoop]
  | succ n ih =>
    intro txs hlen fuel hfuel
    obtain ⟨m, rfl⟩ := Nat.exists_eq_succ_of_ne_zero (by omega : fuel ≠ 0)
    simp only [retrieveLoop]
    cases hlast : (txs.take 10).getLast? with
    | none => simp
    | some lastTx =>
      by_cases hA : (txs.take 10).length = 10
      · by_cases hB : lastTx.ledgerVersion ≤ upto
        · have h10 : txs.length ≥ 10 := by
            have := List.length_take 10 txs
            omega
          have hrec : (txs.drop 10).length = txs.length - 10 := by simp
          have hdn : (txs.drop 10).length ≤ n := by rw [hrec]; omega
          have hdm : (txs.drop 10).length < m := by rw [hrec]; omega
          have hs := ih (txs.drop 10) hdn m hdm
          simp [hA, hB, hs]
        · simp [hA, hB]
      · have hA2 : ¬ 10 ≤ txs.length := by simpa using hA
        simp [hA2]

/-- C9: the pagination loop of retrieveBalanceActivities terminates on any
finite transaction history (pages of fixed size 10 advancing past the
cursor): with fuel exceeding the history length the loop result is
fuel-independent and defined; the loop body stops exactly when a page is
shorter than 10 or the page's last transaction exceeds the upper ledger
bound. -/
theorem c9_pagination_terminates (upto : Nat) (txs : List TxStub) (fuel : Nat)
    (h : txs.length + 1 ≤ fuel) :
    retrieveLoop upto fuel txs = retrieveLoop upto (txs.length + 1) txs ∧
      (retrieveLoop upto (txs.length + 1) txs).isSome = true := by
  constructor
  · exact retrieveLoop_fuel_eq upto txs.length txs le_rfl fuel (txs.length + 1)
      (by omega) (by omega)
  · exact retrieveLoop_isSome upto txs.length txs le_rfl (txs.length + 1) (by omega)

/-- Witness for C9 on a concrete 25-transaction history: the loop runs 3
iterations and terminates. -/
theorem c9_pagination_terminates_witness :
    retrieveLoop 100 40 ((List.range 25).map (fun i => ⟨i, i⟩)) =
        retrieveLoop 100 (((List.range 25).map (fun i => (⟨i, i⟩ : TxStub))).length + 1)
          ((List.range 25).map (fun i => ⟨i, i⟩)) ∧
      (retrieveLoop 100 (((List.range 25).map (fun i => (⟨i, i⟩ : TxStub))).length + 1)
          ((List.range 25).map (fun i => ⟨i, i⟩))).isSome = true := by
  exact c9_pagination_terminates 100 ((List.range 25).map (fun i => ⟨i, i⟩)) 40 (by decide)

theorem blt_sub_zero (a b : BigNum) : (a.sub b).blt (.fin 0) = a.blt b := by
  cases a <;> cases b <;> try rfl
  simp only [BigNum.sub, BigNum.neg, BigNum.add, BigNum.blt]
  rw [decide_eq_decide]
  constructor <;> intro h <;> linarith

theorem resolveFeeOption_no_prepare (getFee : ℚ → BigNum) (input : FeeOptionInput) :
    ∀ c ∈ (resolveFeeOption getFee input).2, c.isPrepare = false := by
  rcases input with ⟨rate, rateType⟩ | choice
  · cases rateType <;> simp [resolveFeeOption, LedgerCall.isPrepare]
  · simp [resolveFeeOption, LedgerCall.isPrepare]

theorem resolvePayportBalance_no_prepare (ledgerBalances : List Balance)
    (fromPayport : Payport) (payportBalanceOpt : Option BigNum) :
    ∀ c ∈ (resolvePayportBalance ledgerBalances fromPayport payportBalanceOpt).2,
      c.isPrepare = false := by
  rcases fromPayport with ⟨addr, _ | e⟩
  · simp [resolvePayportBalance, getBalance, LedgerCall.isPrepare]
  · rcases payportBalanceOpt with _ | pb
    · simp [resolvePayportBalance]
    · by_cases hn : pb.isNan = true <;> simp [resolvePayportBalance, hn]

theorem doCreateTransaction_ok_amount (ledgerBalances : List Balance) (fromTo : FromTo)
    (feeOption : ResolvedFee) (amount payportBalance : BigNum) (tx : UnsignedTx)
    (h : (doCreateTransaction ledgerBalances fromTo feeOption amount payportBalance).1 =
      .ok tx) : tx.amount = amount := by
  simp only [doCreateTransaction, getBalance] at h
  split at h
  · simp at h
  split at h
  · simp at h
  split at h
  · simp at h
  split at h
  · simp at h
  split at h
  · simp at h
  simp only [Except.ok.injEq] at h
  rw [← h]

/-- C2: createSweepTransaction sweeps amount payportBalance minus feeMain,
where the payport balance of a bare address is the reserve-adjusted
confirmed balance from getBalance and that of a sub-account payport is the
caller-supplied payportBalance option (see resolvePayportBalance); whenever
the payport balance is below the fee the call fails with the
insufficient-balance sweep error and no preparePayment call is issued. -/
theorem c2_sweep (ledgerBalances : List Balance) (getFee : ℚ → BigNum) (fromTo : FromTo)
    (feeInput : FeeOptionInput) (payportBalanceOpt : Option BigNum)
    (feeOption : ResolvedFee) (cf : List LedgerCall) (pb : BigNum) (cp : List LedgerCall)
    (hf : resolveFeeOption getFee feeInput = (.ok feeOption, cf))
    (hp : resolvePayportBalance ledgerBalances ⟨fromTo.fromAddress, fromTo.fromExtraId⟩
      payportBalanceOpt = (.ok pb, cp)) :
    (pb.blt feeOption.feeMain = true →
      (createSweepTransaction ledgerBalances getFee fromTo feeInput payportBalanceOpt).1 =
        .error .sweepInsufficientBalance ∧
      ∀ c ∈ (createSweepTransaction ledgerBalances getFee fromTo feeInput payportBalanceOpt).2,
        c.isPrepare = false) ∧
    (∀ tx,
      (createSweepTransaction ledgerBalances getFee fromTo feeInput payportBalanceOpt).1 =
        .ok tx →
      tx.amount = pb.sub feeOption.feeMain) := by
  have key : createSweepTransaction ledgerBalances getFee fromTo feeInput payportBalanceOpt =
      (if (pb.sub feeOption.feeMain).blt (.fin 0) then
        (.error .sweepInsufficientBalance, cf ++ cp)
      else
        ((doCreateTransaction ledgerBalances fromTo feeOption (pb.sub feeOption.feeMain) pb).1,
          cf ++ cp ++
            (doCreateTransaction ledgerBalances fromTo feeOption
              (pb.sub feeOption.feeMain) pb).2)) := by
    simp only [createSweepTransaction, hf, hp]
  constructor
  · intro hblt
    have hcond : (pb.sub feeOption.feeMain).blt (.fin 0) = true := by
      rw [blt_sub_zero]; exact hblt
    rw [key, if_pos hcond]
    refine ⟨rfl, ?_⟩
    intro c hc
    rcases List.mem_append.mp hc with hcf | hcp
    · have := resolveFeeOption_no_prepare getFee feeInput
      rw [hf] at this
      exact this c hcf
    · have := resolvePayportBalance_no_prepare ledgerBalances
        ⟨fromTo.fromAddress, fromTo.fromExtraId⟩ payportBalanceOpt
      rw [hp] at this
      exact this c hcp
  · intro tx htx
    rw [key] at htx
    by_cases hcond : (pb.sub feeOption.feeMain).blt (.fin 0) = true
    · rw [if_pos hcond] at htx
      simp at htx
    · rw [if_neg hcond] at htx
      exact doCreateTransaction_ok_amount ledgerBalances fromTo feeOption _ pb tx htx

/-- Witness for C2: a sub-account payport with caller-supplied balance 10
XRP and a custom 1 XRP fee sweeps exactly 10 - 1 XRP; with balance 1 XRP and
fee 15 XRP the sweep fails with the insufficient-balance error and no
prepare call is issued. -/
theorem c2_sweep_witness :
    (∀ tx,
      (createSweepTransaction [] (fun _ => .fin 1) ⟨"r1", some "2", "r2", none⟩
          (.custom (.fin 1) .main) (some (.fin 10))).1 = .ok tx →
      tx.amount = BigNum.sub (.fin 10) (.fin 1)) ∧
    ((createSweepTransaction [] (fun _ => .fin 1) ⟨"r1", some "2", "r2", none⟩
        (.custom (.fin 15) .main) (some (.fin 1))).1 = .error .sweepInsufficientBalance ∧
      ∀ c ∈ (createSweepTransaction [] (fun _ => .fin 1) ⟨"r1", some "2", "r2", none⟩
          (.custom (.fin 15) .main) (some (.fin 1))).2, c.isPrepare = false) := by
  constructor
  · exact (c2_sweep [] (fun _ => .fin 1) ⟨"r1", some "2", "r2", none⟩
      (.custom (.fin 1) .main) (some (.fin 10))
      ⟨.custom, .fin 1, .main, .fin 1, toBaseDenominationBig (.fin 1)⟩ []
      (.fin 10) [] rfl rfl).2
  · exact (c2_sweep [] (fun _ => .fin 1) ⟨"r1", some "2", "r2", none⟩
      (.custom (.fin 15) .main) (some (.fin 1))
      ⟨.custom, .fin 15, .main, .fin 15, toBaseDenominationBig (.fin 15)⟩ []
      (.fin 1) [] rfl rfl).1 (by decide)

/-- C1 (amended): doCreateTransaction applies its validation checks in
order, each with a distinct error: (1) a NaN or non-positive amount fails
with the invalid-amount error (a positive-infinite amount is not caught
here and instead trips the later insufficient-balance check); (2) with a
valid amount and distinct addresses, a negative reserve-adjusted balance
(on-ledger XRP minus the 20 XRP reserve) fails with the
insufficient-reserve error; (3) otherwise a reserve-adjusted balance below
amount plus fee fails with the insufficient-balance error; (4) otherwise a
sub-account source whose amount plus fee exceeds the supplied
payportBalance fails with the insufficient-payport-balance error.  A
missing payportBalance option with a sub-account source is itself an error,
raised while resolving the payport balance (before amount validation), not
treated as zero. -/
theorem c1_validation (ledgerBalances : List Balance) (getFee : ℚ → BigNum)
    (fromTo : FromTo) (feeInput : FeeOptionInput) (feeOption : ResolvedFee)
    (cf : List LedgerCall) (amount payportBalance : BigNum) :
    ((amount.isNan || amount.ble (.fin 0)) = true →
      (doCreateTransaction ledgerBalances fromTo feeOption amount payportBalance).1 =
        .error .invalidAmount) ∧
    ((amount.isNan || amount.ble (.fin 0)) = false →
      fromTo.fromAddress ≠ fromTo.toAddress →
      getXrpAmount ledgerBalances - MIN_BALANCE < 0 →
      (doCreateTransaction ledgerBalances fromTo feeOption amount payportBalance).1 =
        .error .insufficientReserve) ∧
    ((amount.isNan || amount.ble (.fin 0)) = false →
      fromTo.fromAddress ≠ fromTo.toAddress →
      0 ≤ getXrpAmount ledgerBalances - MIN_BALANCE →
      ((BigNum.fin (getXrpAmount ledgerBalances - MIN_BALANCE)).sub
          (amount.add feeOption.feeMain)).blt (.fin 0) = true →
      (doCreateTransaction ledgerBalances fromTo feeOption amount payportBalance).1 =
        .error .insufficientBalance) ∧
    ((amount.isNan || amount.ble (.fin 0)) = false →
      fromTo.fromAddress ≠ fromTo.toAddress →
      0 ≤ getXrpAmount ledgerBalances - MIN_BALANCE →
      ((BigNum.fin (getXrpAmount ledgerBalances - MIN_BALANCE)).sub
          (amount.add feeOption.feeMain)).blt (.fin 0) = false →
      fromTo.fromExtraId.isSome = true →
      (amount.add feeOption.feeMain).bgt payportBalance = true →
      (doCreateTransaction ledgerBalances fromTo feeOption amount payportBalance).1 =
        .error .insufficientPayportBalance) ∧
    ([Err.invalidAmount, Err.insufficientReserve, Err.insufficientBalance,
      Err.insufficientPayportBalance, Err.missingPayportBalance]).Nodup ∧
    (∀ e, fromTo.fromExtraId = some e →
      resolveFeeOption getFee feeInput = (.ok feeOption, cf) →
      (createTransaction ledgerBalances getFee fromTo feeInput none amount).1 =
        .error .missingPayportBalance) := by
  refine ⟨?_, ?_, ?_, ?_, by decide, ?_⟩
  · intro h
    simp [doCreateTransaction, h]
  · intro h hne hres
    have hbeq : (fromTo.fromAddress == fromTo.toAddress) = false :=
      beq_eq_false_iff_ne.mpr hne
    have hblt : BigNum.blt (.fin (getXrpAmount ledgerBalances - MIN_BALANCE)) (.fin 0) =
        true := by simp [BigNum.blt, hres]
    simp [doCreateTransaction, h, hbeq, getBalance, hblt]
  · intro h hne hres hbal
    have hbeq : (fromTo.fromAddress == fromTo.toAddress) = false :=
      beq_eq_false_iff_ne.mpr hne
    have hblt : BigNum.blt (.fin (getXrpAmount ledgerBalances - MIN_BALANCE)) (.fin 0) =
        false := by simp [BigNum.blt, not_lt.mpr hres]
    simp [doCreateTransaction, h, hbeq, getBalance, hblt, hbal]
  · intro h hne hres hbal hsome hgt
    have hbeq : (fromTo.fromAddress == fromTo.toAddress) = false :=
      beq_eq_false_iff_ne.mpr hne
    have hblt : BigNum.blt (.fin (getXrpAmount ledgerBalances - MIN_BALANCE)) (.fin 0) =
        false := by simp [BigNum.blt, not_lt.mpr hres]
    simp [doCreateTransaction, h, hbeq, getBalance, hblt, hbal, hsome, hgt]
  · intro e he hf
    simp [createTransaction, hf, resolvePayportBalance, he]

/-- C1 counterexample: a positive-infinite amount is neither finite nor
NaN-rejected: with 100 XRP on the source address the call fails with the
insufficient-balance error instead of the invalid-amount error the claim
requires for every non-finite amount.  Also, with a sub-account source and
no payportBalance option, a non-positive amount fails with the
missing-payport-balance error, so the missing-option error precedes rule
(1) rather than following rules (1)-(3). -/
theorem c1_counterexample :
    (∀ q : ℚ, BigNum.posInf ≠ .fin q) ∧
    (doCreateTransaction [⟨"XRP", 100⟩] ⟨"r1", none, "r2", none⟩
        ⟨.custom, .fin 1, .main, .fin 1, toBaseDenominationBig (.fin 1)⟩
        .posInf (.fin 0)).1 = .error .insufficientBalance ∧
    Err.insufficientBalance ≠ Err.invalidAmount ∧
    (createTransaction [⟨"XRP", 100⟩] (fun _ => .fin 1) ⟨"r1", some "2", "r2", none⟩
        (.custom (.fin 1) .main) none (.fin (-5))).1 = .error .missingPayportBalance ∧
    Err.missingPayportBalance ≠ Err.invalidAmount := by
  refine ⟨?_, ?_, by decide, ?_, by decide⟩
  · intro q h
    cases h
  · have hres : (0 : ℚ) ≤ getXrpAmount [⟨"XRP", 100⟩] - MIN_BALANCE := by
      norm_num [getXrpAmount, findXrp, MIN_BALANCE]
    have hbal : ((BigNum.fin (getXrpAmount [⟨"XRP", 100⟩] - MIN_BALANCE)).sub
        (BigNum.posInf.add (BigNum.fin 1))).blt (.fin 0) = true := by
      simp [BigNum.add, BigNum.sub, BigNum.neg, BigNum.blt]
    exact (c1_validation [⟨"XRP", 100⟩] (fun _ => .fin 1) ⟨"r1", none, "r2", none⟩
      (.custom (.fin 1) .main) ⟨.custom, .fin 1, .main, .fin 1, toBaseDenominationBig (.fin 1)⟩
      [] .posInf (.fin 0)).2.2.1 (by decide) (by decide) hres hbal
  · exact (c1_validation [⟨"XRP", 100⟩] (fun _ => .fin 1) ⟨"r1", some "2", "r2", none⟩
      (.custom (.fin 1) .main) ⟨.custom, .fin 1, .main, .fin 1, toBaseDenominationBig (.fin 1)⟩
      [] (.fin (-5)) (.fin 0)).2.2.2.2.2 "2" rfl rfl

/-- Witness for C1: a negative amount fails with the invalid-amount error. -/
theorem c1_validation_witness :
    ((BigNum.fin (-3)).isNan || (BigNum.fin (-3)).ble (.fin 0)) = true ∧
    (doCreateTransaction [] ⟨"r1", none, "r2", none⟩
        ⟨.custom, .fin 1, .main, .fin 1, toBaseDenominationBig (.fin 1)⟩
        (.fin (-3)) (.fin 0)).1 = .error .invalidAmount := by
  refine ⟨by decide, ?_⟩
  exact (c1_validation [] (fun _ => .fin 1) ⟨"r1", none, "r2", none⟩
    (.custom (.fin 1) .main) ⟨.custom, .fin 1, .main, .fin 1, toBaseDenominationBig (.fin 1)⟩
    [] (.fin (-3)) (.fin 0)).1 (by decide)

theorem digitsAux_eq_digits (b : Nat) (hb : 2 ≤ b) :
    ∀ fuel n, n ≤ fuel → digitsAux b fuel n = Nat.digits b n := by
  intro fuel
  induction fuel with
  | zero =>
    intro n hn
    have h0 : n = 0 := Nat.le_zero.mp hn
    subst h0
    simp [digitsAux]
  | succ fuel ih =>
    intro n hn
    by_cases h0 : n = 0
    · subst h0
      simp [digitsAux]
    · have hpos : 0 < n := Nat.pos_of_ne_zero h0
      simp only [digitsAux, if_neg h0]
      rw [Nat.digits_def' (by omega : 1 < b) hpos]
      congr 1
      apply ih
      have hdiv : n / b ≤ n / 2 := Nat.div_le_div_left hb (by omega)
      have h2 : n / 2 < n := Nat.div_lt_self hpos (by omega)
      omega

theorem decChar_toNat (d : Nat) (h : d < 10) : (decChar d).toNat = 48 + d := by
  interval_cases d <;> decide

theorem charDigitVal_decChar (d : Nat) (h : d < 10) : charDigitVal (decChar d) = d := by
  simp [charDigitVal, decChar_toNat d h]

theorem isDigitChar_decChar (d : Nat) (h : d < 10) : isDigitChar (decChar d) = true := by
  simp only [isDigitChar, decChar_toNat d h]
  simp
  omega

theorem decChars_digits (n : Nat) : ∀ c ∈ decChars n, isDigitChar c = true := by
  intro c hc
  by_cases h0 : n = 0
  · subst h0
    simp [decChars] at hc
    subst hc
    decide
  · simp only [decChars, if_neg h0] at hc
    rw [digitsAux_eq_digits 10 (by omega) n n le_rfl] at hc
    obtain ⟨d, hd, rfl⟩ := List.mem_map.mp hc
    have hdm : d ∈ Nat.digits 10 n := List.mem_reverse.mp hd
    exact isDigitChar_decChar d (Nat.digits_lt_base (by omega) hdm)

theorem valC_append_singleton (l : List Char) (c : Char) :
    valC (l ++ [c]) = 10 * valC l + charDigitVal c := by
  induction l with
  | nil =>
    simp [valC]
  | cons x xs ih =>
    rw [List.cons_append]
    rw [show valC (x :: (xs ++ [c])) =
      charDigitVal x * 10 ^ (xs ++ [c]).length + valC (xs ++ [c]) from rfl]
    rw [ih, List.length_append, List.length_singleton]
    rw [show valC (x :: xs) = charDigitVal x * 10 ^ xs.length + valC xs from rfl]
    ring

theorem valC_of_digits (l : List Nat) (h : ∀ d ∈ l, d < 10) :
    valC (l.reverse.map decChar) = Nat.ofDigits 10 l := by
  induction l with
  | nil => simp [valC, Nat.ofDigits]
  | cons d ds ih =>
    simp only [List.reverse_cons, List.map_append, List.map_cons, List.map_nil]
    rw [valC_append_singleton]
    rw [ih (fun x hx => h x (List.mem_cons_of_mem d hx))]
    rw [charDigitVal_decChar d (h d (List.mem_cons_self d ds))]
    rw [Nat.ofDigits_cons]
    ring

theorem valC_decChars (n : Nat) : valC (decChars n) = n := by
  by_cases h0 : n = 0
  · subst h0
    decide
  · simp only [decChars, if_neg h0]
    rw [digitsAux_eq_digits 10 (by omega) n n le_rfl]
    rw [valC_of_digits _ (fun d hd => Nat.digits_lt_base (by omega) hd)]
    exact Nat.ofDigits_digits 10 n

theorem decChars_length_le (w n : Nat) (hw : 1 ≤ w) (h : n < 10 ^ w) :
    (decChars n).length ≤ w := by
  by_cases h0 : n = 0
  · subst h0
    simpa [decChars] using hw
  · simp only [decChars, if_neg h0, List.length_map, List.length_reverse]
    rw [digitsAux_eq_digits 10 (by omega) n n le_rfl]
    rw [Nat.digits_len 10 n (by omega) h0]
    have := (Nat.lt_pow_iff_log_lt (by omega : (1:ℕ) < 10) h0).mp h
    omega

theorem valC_lt_pow (l : List Char) (h : ∀ c ∈ l, isDigitChar c = true) :
    valC l < 10 ^ l.length := by
  induction l with
  | nil => simp [valC]
  | cons c cs ih =>
    have hc := h c (List.mem_cons_self c cs)
    have hcs := ih (fun x hx => h x (List.mem_cons_of_mem c hx))
    have hval : charDigitVal c ≤ 9 := by
      simp [isDigitChar] at hc
      simp [charDigitVal]
      omega
    simp only [valC, List.length_cons]
    calc charDigitVal c * 10 ^ cs.length + valC cs
        < charDigitVal c * 10 ^ cs.length + 10 ^ cs.length := by omega
      _ = (charDigitVal c + 1) * 10 ^ cs.length := by ring
      _ ≤ 10 * 10 ^ cs.length := Nat.mul_le_mul_right _ (by omega)
      _ = 10 ^ (cs.length + 1) := by ring

theorem padLeftAux_data (n : Nat) :
    ∀ fuel (x : String), n ≤ fuel + x.length →
      (padLeftAux "0" n fuel x).data = List.replicate (n - x.length) '0' ++ x.data := by
  intro fuel
  induction fuel with
  | zero =>
    intro x hx
    simp only [padLeftAux]
    have h0 : n - x.length = 0 := by omega
    simp [h0]
  | succ fuel ih =>
    intro x hx
    simp only [padLeftAux]
    by_cases hlt : x.length < n
    · rw [if_pos hlt]
      have h01 : ("0" : String).length = 1 := rfl
      have hlen : ("0" ++ x).length = x.length + 1 := by
        rw [String.length_append]
        omega
      rw [ih ("0" ++ x) (by omega)]
      rw [hlen]
      have hdata : ("0" ++ x).data = '0' :: x.data := by
        rw [String.data_append]
        rfl
      rw [hdata]
      have hsub : n - x.length = (n - (x.length + 1)) + 1 := by omega
      rw [hsub, List.replicate_succ']
      simp [List.append_assoc]
    · rw [if_neg hlt]
      have h0 : n - x.length = 0 := by omega
      simp [h0]

theorem padLeft_data (x : String) (n : Nat) :
    (padLeft x n "0").data = List.replicate (n - x.length) '0' ++ x.data :=
  padLeftAux_data n n x (by omega)

theorem padDec_data (w n : Nat) :
    (padLeft (decString n) w "0").data =
      List.replicate (w - (decChars n).length) '0' ++ decChars n := by
  rw [padLeft_data]
  rfl

theorem padDec_length (w n : Nat) (hw : 1 ≤ w) (h : n < 10 ^ w) :
    ((padLeft (decString n) w "0").data).length = w := by
  rw [padDec_data]
  have := decChars_length_le w n hw h
  simp only [List.length_append, List.length_replicate]
  omega

theorem valC_replicate_append (k : Nat) (l : List Char) :
    valC (List.replicate k '0' ++ l) = valC l := by
  induction k with
  | zero => simp
  | succ k ih =>
    simp only [List.replicate_succ, List.cons_append, valC]
    have h0 : charDigitVal '0' = 0 := by decide
    simp only [h0, Nat.zero_mul, Nat.zero_add]
    exact ih

theorem padDec_val (w n : Nat) : valC ((padLeft (decString n) w "0").data) = n := by
  rw [padDec_data, valC_replicate_append, valC_decChars]

theorem padDec_digits (w n : Nat) :
    ∀ c ∈ (padLeft (decString n) w "0").data, isDigitChar c = true := by
  rw [padDec_data]
  intro c hc
  rcases List.mem_append.mp hc with h | h
  · have := List.eq_of_mem_replicate h
    subst this
    decide
  · exact decChars_digits n c h

theorem char_lt_iff (c d : Char) : c < d ↔ c.toNat < d.toNat :=
  ⟨fun h => h, fun h => h⟩

theorem lex_cons_iff (a b : Char) (l1 l2 : List Char) :
    List.Lex (fun x y => x < y) (a :: l1) (b :: l2) ↔
      a < b ∨ (a = b ∧ List.Lex (fun x y => x < y) l1 l2) := by
  constructor
  · intro h
    cases h with
    | cons h => exact Or.inr ⟨rfl, h⟩
    | rel h => exact Or.inl h
  · intro h
    rcases h with h | ⟨rfl, h⟩
    · exact List.Lex.rel h
    · exact List.Lex.cons h

theorem lex_append_iff (l1 l2 t1 t2 : List Char) (h : l1.length = l2.length) :
    List.Lex (fun x y => x < y) (l1 ++ t1) (l2 ++ t2) ↔
      List.Lex (fun x y => x < y) l1 l2 ∨
        (l1 = l2 ∧ List.Lex (fun x y => x < y) t1 t2) := by
  induction l1 generalizing l2 with
  | nil =>
    cases l2 with
    | nil => simp
    | cons b bs => simp at h
  | cons a as ih =>
    cases l2 with
    | nil => simp at h
    | cons b bs =>
      have hlen : as.length = bs.length := by simpa using h
      simp only [List.cons_append]
      rw [lex_cons_iff, lex_cons_iff, ih bs hlen]
      constructor
      · rintro (h1 | ⟨rfl, h1 | ⟨rfl, h1⟩⟩)
        · exact Or.inl (Or.inl h1)
        · exact Or.inl (Or.inr ⟨rfl, h1⟩)
        · exact Or.inr ⟨rfl, h1⟩
      · rintro ((h1 | ⟨rfl, h1⟩) | ⟨heq, h1⟩)
        · exact Or.inl h1
        · exact Or.inr ⟨rfl, Or.inl h1⟩
        · obtain ⟨rfl, rfl⟩ : a = b ∧ as = bs := by
            injection heq with hh1 hh2
            exact ⟨hh1, hh2⟩
          exact Or.inr ⟨rfl, Or.inr ⟨rfl, h1⟩⟩

theorem block_lt_iff (P a b v1 v2 : Nat) (h1 : v1 < P) (h2 : v2 < P) :
    a * P + v1 < b * P + v2 ↔ a < b ∨ (a = b ∧ v1 < v2) := by
  constructor
  · intro h
    rcases Nat.lt_trichotomy a b with hab | hab | hab
    · exact Or.inl hab
    · subst hab
      exact Or.inr ⟨rfl, by omega⟩
    · exfalso
      have hba : b + 1 ≤ a := hab
      have hge : (b + 1) * P ≤ a * P := Nat.mul_le_mul_right P hba
      have hP : b * P + P ≤ a * P := by
        calc b * P + P = (b + 1) * P := by ring
          _ ≤ a * P := hge
      omega
  · intro h
    rcases h with hab | ⟨rfl, hv⟩
    · have hab1 : a + 1 ≤ b := hab
      have hge : (a + 1) * P ≤ b * P := Nat.mul_le_mul_right P hab1
      have hP : a * P + P ≤ b * P := by
        calc a * P + P = (a + 1) * P := by ring
          _ ≤ b * P := hge
      omega
    · omega

theorem lex_iff_valC (l1 l2 : List Char) (hlen : l1.length = l2.length)
    (h1 : ∀ c ∈ l1, isDigitChar c = true) (h2 : ∀ c ∈ l2, isDigitChar c = true) :
    List.Lex (fun x y => x < y) l1 l2 ↔ valC l1 < valC l2 := by
  induction l1 generalizing l2 with
  | nil =>
    cases l2 with
    | nil => simp [valC]
    | cons b bs => simp at hlen
  | cons a as ih =>
    cases l2 with
    | nil => simp at hlen
    | cons b bs =>
      have hlen2 : as.length = bs.length := by simpa using hlen
      have ha := h1 a (List.mem_cons_self a as)
      have hb := h2 b (List.mem_cons_self b bs)
      have has : ∀ c ∈ as, isDigitChar c = true :=
        fun c hc => h1 c (List.mem_cons_of_mem a hc)
      have hbs : ∀ c ∈ bs, isDigitChar c = true :=
        fun c hc => h2 c (List.mem_cons_of_mem b hc)
      have hva : valC as < 10 ^ bs.length := by
        rw [← hlen2]
        exact valC_lt_pow as has
      have hvb : valC bs < 10 ^ bs.length := valC_lt_pow bs hbs
      rw [lex_cons_iff]
      rw [show valC (a :: as) = charDigitVal a * 10 ^ as.length + valC as from rfl]
      rw [show valC (b :: bs) = charDigitVal b * 10 ^ bs.length + valC bs from rfl]
      rw [hlen2]
      rw [block_lt_iff (10 ^ bs.length) (charDigitVal a) (charDigitVal b)
        (valC as) (valC bs) hva hvb]
      have hlt : a < b ↔ charDigitVal a < charDigitVal b := by
        rw [char_lt_iff]
        simp only [isDigitChar, Bool.and_eq_true, decide_eq_true_eq] at ha hb
        simp only [charDigitVal]
        omega
      have heq : a = b ↔ charDigitVal a = charDigitVal b := by
        constructor
        · intro h
          rw [h]
        · intro h
          simp only [isDigitChar, Bool.and_eq_true, decide_eq_true_eq] at ha hb
          simp only [charDigitVal] at h
          have htn : a.toNat = b.toNat := by omega
          have hchar := congrArg Char.ofNat htn
          rwa [Char.ofNat_toNat, Char.ofNat_toNat] at hchar
      exact or_congr hlt (and_congr heq (ih bs hlen2 has hbs))

theorem seqString_data (lv idx : Nat) (o : Bool) :
    (seqString lv idx o).data =
      (padLeft (decString lv) 12 "0").data ++
        ('.' :: ((padLeft (decString idx) 8 "0").data ++
          ('.' :: (if o then ['0', '0'] else ['0', '1'])))) := by
  cases o <;>
    simp only [seqString, Bool.false_eq_true, if_false, if_true, String.data_append,
      List.append_assoc] <;>
    rfl

theorem padDec_eq_iff (w n m : Nat) :
    (padLeft (decString n) w "0").data = (padLeft (decString m) w "0").data ↔ n = m := by
  constructor
  · intro h
    have := congrArg valC h
    rwa [padDec_val, padDec_val] at this
  · intro h
    rw [h]

theorem seqString_lt_iff (lv1 idx1 lv2 idx2 : Nat) (o1 o2 : Bool)
    (hlv1 : lv1 < 10 ^ 12) (hlv2 : lv2 < 10 ^ 12)
    (hidx1 : idx1 < 10 ^ 8) (hidx2 : idx2 < 10 ^ 8) :
    (seqString lv1 idx1 o1 < seqString lv2 idx2 o2) ↔
      (lv1 < lv2 ∨ (lv1 = lv2 ∧
        (idx1 < idx2 ∨ (idx1 = idx2 ∧ o1 = true ∧ o2 = false)))) := by
  rw [String.lt_iff_toList_lt]
  rw [show (seqString lv1 idx1 o1).toList = (seqString lv1 idx1 o1).data from rfl]
  rw [show (seqString lv2 idx2 o2).toList = (seqString lv2 idx2 o2).data from rfl]
  rw [show ((seqString lv1 idx1 o1).data < (seqString lv2 idx2 o2).data) ↔
      List.Lex (fun x y => x < y) (seqString lv1 idx1 o1).data
        (seqString lv2 idx2 o2).data from Iff.rfl]
  rw [seqString_data, seqString_data]
  have hlen12 : ((padLeft (decString lv1) 12 "0").data).length =
      ((padLeft (decString lv2) 12 "0").data).length := by
    rw [padDec_length 12 lv1 (by omega) hlv1, padDec_length 12 lv2 (by omega) hlv2]
  have hlen8 : ((padLeft (decString idx1) 8 "0").data).length =
      ((padLeft (decString idx2) 8 "0").data).length := by
    rw [padDec_length 8 idx1 (by omega) hidx1, padDec_length 8 idx2 (by omega) hidx2]
  rw [lex_append_iff _ _ _ _ hlen12]
  rw [lex_cons_iff]
  rw [lex_append_iff _ _ _ _ hlen8]
  rw [lex_cons_iff]
  have hdot : ¬('.' < '.') := lt_irrefl '.'
  have hP : List.Lex (fun x y => x < y) (padLeft (decString lv1) 12 "0").data
      (padLeft (decString lv2) 12 "0").data ↔ lv1 < lv2 := by
    rw [lex_iff_valC _ _ hlen12 (padDec_digits 12 lv1) (padDec_digits 12 lv2)]
    rw [padDec_val, padDec_val]
  have hQ : List.Lex (fun x y => x < y) (padLeft (decString idx1) 8 "0").data
      (padLeft (decString idx2) 8 "0").data ↔ idx1 < idx2 := by
    rw [lex_iff_valC _ _ hlen8 (padDec_digits 8 idx1) (padDec_digits 8 idx2)]
    rw [padDec_val, padDec_val]
  have hT : List.Lex (fun x y => x < y) (if o1 then ['0', '0'] else ['0', '1'])
      (if o2 then ['0', '0'] else ['0', '1']) ↔ (o1 = true ∧ o2 = false) := by
    cases o1 <;> cases o2 <;> decide
  rw [hP, hQ, hT, padDec_eq_iff, padDec_eq_iff]
  simp [hdot]

theorem seqString_length (lv idx : Nat) (o : Bool) (hlv : lv < 10 ^ 12)
    (hidx : idx < 10 ^ 8) : (seqString lv idx o).length = 24 := by
  have hdata := seqString_data lv idx o
  have hlen := congrArg List.length hdata
  rw [show (seqString lv idx o).data.length = (seqString lv idx o).length from rfl] at hlen
  rw [hlen]
  rw [List.length_append, List.length_cons, List.length_append, List.length_cons]
  rw [padDec_length 12 lv (by omega) hlv, padDec_length 8 idx (by omega) hidx]
  cases o <;> simp

/-- C3: a transaction with a tes- or tec-prefixed result and an XRP balance
change for the address is converted to a balance activity whose
activitySequence is the 12-digit zero-padded ledger version, a dot, the
8-digit zero-padded intra-ledger index, a dot, and the 2-digit tiebreak 00
for an outgoing leg (negative balance change) and 01 for an incoming one;
within the padding bounds, lexicographic order of two such strings
coincides with the order of (ledgerVersion, indexInLedger, direction) with
outgoing before incoming. -/
theorem c3_activity_sequence (getLedger1 getLedger2 : Nat → LedgerInfo)
    (addr1 addr2 : String) (tx1 tx2 : RippleTx) (o1 o2 : TxOutcome)
    (bc1 bc2 : TxBalanceChange)
    (ho1 : tx1.outcome = some o1) (ho2 : tx2.outcome = some o2)
    (hres1 : (strStartsWith o1.result "tes" || strStartsWith o1.result "tec") = true)
    (hres2 : (strStartsWith o2.result "tes" || strStartsWith o2.result "tec") = true)
    (hfind1 : xrpBalanceChange o1 addr1 = some bc1)
    (hfind2 : xrpBalanceChange o2 addr2 = some bc2)
    (hb1 : o1.ledgerVersion < 10 ^ 12) (hb2 : o2.ledgerVersion < 10 ^ 12)
    (hi1 : o1.indexInLedger < 10 ^ 8) (hi2 : o2.indexInLedger < 10 ^ 8) :
    ∃ a1 a2, txToBalanceActivity getLedger1 addr1 tx1 = some a1 ∧
      txToBalanceActivity getLedger2 addr2 tx2 = some a2 ∧
      a1.activitySequence =
        seqString o1.ledgerVersion o1.indexInLedger (decide (bc1.value < 0)) ∧
      a2.activitySequence =
        seqString o2.ledgerVersion o2.indexInLedger (decide (bc2.value < 0)) ∧
      a1.activityType = (if decide (bc1.value < 0) then "out" else "in") ∧
      a2.activityType = (if decide (bc2.value < 0) then "out" else "in") ∧
      a1.activitySequence.length = 24 ∧
      (a1.activitySequence < a2.activitySequence ↔
        (o1.ledgerVersion < o2.ledgerVersion ∨ (o1.ledgerVersion = o2.ledgerVersion ∧
          (o1.indexInLedger < o2.indexInLedger ∨ (o1.indexInLedger = o2.indexInLedger ∧
            a1.activityType = "out" ∧ a2.activityType = "in"))))) := by
  refine ⟨⟨if decide (bc1.value < 0) then "out" else "in", "XRP", bc1.currency, addr1,
      (if isPaymentTx tx1 then
        (if decide (bc1.value < 0) then tx1.sourceTag else tx1.destinationTag)
      else none).map decString,
      bc1.value, tx1.id,
      seqString o1.ledgerVersion o1.indexInLedger (decide (bc1.value < 0)),
      (getLedger1 o1.ledgerVersion).ledgerHash, o1.ledgerVersion⟩,
    ⟨if decide (bc2.value < 0) then "out" else "in", "XRP", bc2.currency, addr2,
      (if isPaymentTx tx2 then
        (if decide (bc2.value < 0) then tx2.sourceTag else tx2.destinationTag)
      else none).map decString,
      bc2.value, tx2.id,
      seqString o2.ledgerVersion o2.indexInLedger (decide (bc2.value < 0)),
      (getLedger2 o2.ledgerVersion).ledgerHash, o2.ledgerVersion⟩,
    ?_, ?_, rfl, rfl, rfl, rfl, ?_, ?_⟩
  · simp only [txToBalanceActivity, ho1, hres1, Bool.not_true, if_false, hfind1]
    simp [seqString]
  · simp only [txToBalanceActivity, ho2, hres2, Bool.not_true, if_false, hfind2]
    simp [seqString]
  · exact seqString_length o1.ledgerVersion o1.indexInLedger _ hb1 hi1
  · rw [seqString_lt_iff o1.ledgerVersion o1.indexInLedger o2.ledgerVersion o2.indexInLedger
      (decide (bc1.value < 0)) (decide (bc2.value < 0)) hb1 hb2 hi1 hi2]
    have hdir1 : ((if decide (bc1.value < 0) then "out" else "in") = "out") ↔
        decide (bc1.value < 0) = true := by
      cases hdec : decide (bc1.value < 0) <;> simp
    have hdir2 : ((if decide (bc2.value < 0) then "out" else "in") = "in") ↔
        decide (bc2.value < 0) = false := by
      cases hdec : decide (bc2.value < 0) <;> simp
    rw [hdir1, hdir2]

/-- Witness for C3: the spec's example, ledger version 1000000 and
intra-ledger index 3, with an outgoing and an incoming leg. -/
theorem c3_activity_sequence_witness :
    ∃ a1 a2,
      txToBalanceActivity (fun _ => ⟨"LH", 0⟩) "rA"
          ⟨"T1", "payment", some 7, some 9,
            some ⟨"tesSUCCESS", 1000000, 3, [("rA", [⟨"XRP", -1⟩])]⟩⟩ = some a1 ∧
      txToBalanceActivity (fun _ => ⟨"LH", 0⟩) "rB"
          ⟨"T2", "payment", none, none,
            some ⟨"tecPATH_DRY", 1000000, 3, [("rB", [⟨"XRP", 1⟩])]⟩⟩ = some a2 ∧
      a1.activitySequence = "000001000000.00000003.00" ∧
      a2.activitySequence = "000001000000.00000003.01" ∧
      a1.activitySequence < a2.activitySequence := by
  obtain ⟨a1, a2, h1, h2, hs1, hs2, ht1, ht2, hlen, hiff⟩ :=
    c3_activity_sequence (fun _ => ⟨"LH", 0⟩) (fun _ => ⟨"LH", 0⟩) "rA" "rB"
      ⟨"T1", "payment", some 7, some 9,
        some ⟨"tesSUCCESS", 1000000, 3, [("rA", [⟨"XRP", -1⟩])]⟩⟩
      ⟨"T2", "payment", none, none,
        some ⟨"tecPATH_DRY", 1000000, 3, [("rB", [⟨"XRP", 1⟩])]⟩⟩
      ⟨"tesSUCCESS", 1000000, 3, [("rA", [⟨"XRP", -1⟩])]⟩
      ⟨"tecPATH_DRY", 1000000, 3, [("rB", [⟨"XRP", 1⟩])]⟩
      ⟨"XRP", -1⟩ ⟨"XRP", 1⟩ rfl rfl (by decide) (by decide) (by decide) (by decide)
      (by decide) (by decide) (by decide) (by decide)
  refine ⟨a1, a2, h1, h2, ?_, ?_, ?_⟩
  · rw [hs1]
    decide
  · rw [hs2]
    decide
  · exact hiff.mpr (Or.inr ⟨rfl, Or.inr ⟨rfl, by rw [ht1]; decide, by rw [ht2]; decide⟩⟩)

theorem deriveBasePath_of_depth_ge (ops : HdOps) (key : HDNode) (h : 3 ≤ key.depth) :
    deriveBasePath ops key = .ok key := by
  unfold deriveBasePath
  rw [List.drop_eq_nil_of_le (by simpa [derivationPathIndices] using h)]
  rfl

theorem padLeft_of_le (x : String) (n : Nat) (h : n ≤ x.length) : padLeft x n "0" = x := by
  unfold padLeft
  cases n with
  | zero => rfl
  | succ m =>
    simp only [padLeftAux]
    rw [if_neg (by omega)]

theorem hexVal_toUpper_hexChar (d : Nat) (h : d < 16) :
    hexVal (Char.toUpper (hexChars.getD d '0')) = d := by
  interval_cases d <;> decide

theorem hexString_data (bytes : List Nat) :
    (hexString bytes).data = bytes.foldr (fun b acc => byteHex b ++ acc) [] := rfl

theorem hexString_length (bytes : List Nat) : (hexString bytes).length = 2 * bytes.length := by
  induction bytes with
  | nil => rfl
  | cons b bs ih =>
    show ((byteHex b ++ bs.foldr (fun b acc => byteHex b ++ acc) []).length) = 2 * (bs.length + 1)
    rw [List.length_append]
    have hb : (byteHex b).length = 2 := rfl
    have : (bs.foldr (fun b acc => byteHex b ++ acc) []).length = 2 * bs.length := ih
    omega

theorem hexToBytes_toUpper_hexString (bytes : List Nat) (h : ∀ b ∈ bytes, b < 256) :
    hexToBytes ((toUpperString (hexString bytes)).data) = bytes := by
  induction bytes with
  | nil => rfl
  | cons b bs ih =>
    have hb := h b (List.mem_cons_self b bs)
    have hbs : ∀ x ∈ bs, x < 256 := fun x hx => h x (List.mem_cons_of_mem b hx)
    show hexToBytes (((byteHex b ++ bs.foldr (fun x acc => byteHex x ++ acc) []).map
      Char.toUpper)) = b :: bs
    rw [List.map_append]
    have hred : (byteHex b).map Char.toUpper =
        [Char.toUpper (hexChars.getD (b / 16 % 16) '0'), Char.toUpper (hexChars.getD (b % 16) '0')] := rfl
    rw [hred]
    show (16 * hexVal (Char.toUpper (hexChars.getD (b / 16 % 16) '0')) +
        hexVal (Char.toUpper (hexChars.getD (b % 16) '0'))) ::
      hexToBytes ((bs.foldr (fun x acc => byteHex x ++ acc) []).map Char.toUpper) = b :: bs
    rw [hexVal_toUpper_hexChar (b / 16 % 16) (Nat.mod_lt _ (by omega)),
      hexVal_toUpper_hexChar (b % 16) (Nat.mod_lt _ (by omega))]
    have hdiv : b / 16 % 16 = b / 16 := Nat.mod_eq_of_lt (by omega)
    rw [hdiv]
    have hsplit : 16 * (b / 16) + b % 16 = b := Nat.div_add_mod b 16
    rw [hsplit]
    exact congrArg (b :: ·) (ih hbs)

theorem foldl_byte_lt (bytes : List Nat) (h : ∀ b ∈ bytes, b < 256) :
    ∀ acc, List.foldl (fun a b => a * 256 + b) acc bytes < (acc + 1) * 256 ^ bytes.length := by
  induction bytes with
  | nil =>
    intro acc
    simp
  | cons b bs ih =>
    intro acc
    have hb := h b (List.mem_cons_self b bs)
    have hbs : ∀ x ∈ bs, x < 256 := fun x hx => h x (List.mem_cons_of_mem b hx)
    show List.foldl (fun a b => a * 256 + b) (acc * 256 + b) bs < (acc + 1) * 256 ^ (bs.length + 1)
    calc List.foldl (fun a b => a * 256 + b) (acc * 256 + b) bs
        < (acc * 256 + b + 1) * 256 ^ bs.length := ih hbs (acc * 256 + b)
      _ ≤ ((acc + 1) * 256) * 256 ^ bs.length := Nat.mul_le_mul_right _ (by omega)
      _ = (acc + 1) * 256 ^ (bs.length + 1) := by ring

theorem byteListVal_lt (bytes : List Nat) (h : ∀ b ∈ bytes, b < 256) :
    byteListVal bytes < 256 ^ bytes.length := by
  have := foldl_byte_lt bytes h 0
  simpa [byteListVal] using this

theorem byteListVal_cons_zero (tail : List Nat) :
    byteListVal (0 :: tail) = byteListVal tail := by
  simp [byteListVal]

theorem b58Char_body (d : Nat) (h : d < 58) : addressBodyChar (b58Char d) = true := by
  have hall : ∀ x, x < 58 → addressBodyChar (b58Char x) = true := by decide
  exact hall d h

theorem base58Encode_valid (tail : List Nat) (h1 : tail.length = 24)
    (h2 : ∀ b ∈ tail, b < 256) (a : Nat) (as : List Nat) (h3 : tail = a :: as) (ha : a ≠ 0)
    (h4 : 58 ^ 24 ≤ byteListVal tail) :
    isValidAddress (base58Encode (0 :: tail)) = true := by
  have hz : leadingZeroCount (0 :: tail) = 1 := by
    subst h3
    simp [leadingZeroCount, ha]
  have hN0 : byteListVal (0 :: tail) = byteListVal tail := byteListVal_cons_zero tail
  have hNpos : byteListVal tail ≠ 0 := by
    have : (0 : ℕ) < 58 ^ 24 := by positivity
    omega
  have hNlt : byteListVal tail < 58 ^ 33 := by
    have hl := byteListVal_lt tail h2
    rw [h1] at hl
    have hpow : (256 : ℕ) ^ 24 ≤ 58 ^ 33 := by decide
    omega
  have hdig : digitsAux 58 (byteListVal (0 :: tail)) (byteListVal (0 :: tail)) =
      Nat.digits 58 (byteListVal tail) := by
    rw [hN0]
    exact digitsAux_eq_digits 58 (by omega) (byteListVal tail) (byteListVal tail) le_rfl
  have hlen : 25 ≤ (Nat.digits 58 (byteListVal tail)).length ∧
      (Nat.digits 58 (byteListVal tail)).length ≤ 33 := by
    rw [Nat.digits_len 58 (byteListVal tail) (by omega) hNpos]
    constructor
    · have := (Nat.pow_le_iff_le_log (by omega : (1:ℕ) < 58) hNpos).mp h4
      omega
    · have := (Nat.lt_pow_iff_log_lt (by omega : (1:ℕ) < 58) hNpos).mp hNlt
      omega
  show isValidAddress
    ⟨List.replicate (leadingZeroCount (0 :: tail)) (b58Char 0) ++
      ((digitsAux 58 (byteListVal (0 :: tail)) (byteListVal (0 :: tail))).reverse).map b58Char⟩ = true
  rw [hz, hdig]
  have hr : b58Char 0 = 'r' := by decide
  rw [hr]
  have hrepl : List.replicate 1 'r' = ['r'] := rfl
  rw [hrepl]
  show ('r' == 'r' &&
      decide (25 ≤ (((Nat.digits 58 (byteListVal tail)).reverse).map b58Char).length) &&
      decide ((((Nat.digits 58 (byteListVal tail)).reverse).map b58Char).length ≤ 34) &&
      (((Nat.digits 58 (byteListVal tail)).reverse).map b58Char).all addressBodyChar) = true
  have hlmap : (((Nat.digits 58 (byteListVal tail)).reverse).map b58Char).length =
      (Nat.digits 58 (byteListVal tail)).length := by
    simp
  rw [hlmap]
  have hall : (((Nat.digits 58 (byteListVal tail)).reverse).map b58Char).all
      addressBodyChar = true := by
    rw [List.all_eq_true]
    intro c hc
    obtain ⟨d, hd, rfl⟩ := List.mem_map.mp hc
    have hdm : d ∈ Nat.digits 58 (byteListVal tail) := List.mem_reverse.mp hd
    exact b58Char_body d (Nat.digits_lt_base (by omega) hdm)
  rw [hall]
  simp only [beq_self_eq_true, Bool.true_and, Bool.and_true]
  rw [decide_eq_true (by omega : 25 ≤ (Nat.digits 58 (byteListVal tail)).length)]
  rw [decide_eq_true (by omega : (Nat.digits 58 (byteListVal tail)).length ≤ 34)]
  rfl

/-- C8 (amended): deriving a signatory from a neutered extended key at or
below the account depth (depth at least 3, so only the two non-hardened
child derivations remain) succeeds, renders the private key as the empty
string, and yields a valid ripple address (under the stated size and
non-degeneracy conditions on the hash outputs, which hold for real SHA-256
and RIPEMD-160 outputs); extracting a private key from the derived neutered
node fails with the key-derivation error.  A neutered key above the account
depth instead fails, since the remaining path components are hardened. -/
theorem c8_watch_only (ops : HdOps) (hdKey : HDNode) (index : Nat)
    (accountId checksumSrc : List Nat) (a0 : Nat) (as0 : List Nat)
    (hneut : hdKey.isNeutered = true) (hdepth : 3 ≤ hdKey.depth)
    (hpklen : ((hdKey.derive ops 0).derive ops index).pubKeyBytes.length = 33)
    (hpkbytes : ∀ b ∈ ((hdKey.derive ops 0).derive ops index).pubKeyBytes, b < 256)
    (haid : ops.ripemd160 (ops.sha256 (((hdKey.derive ops 0).derive ops index).pubKeyBytes)) =
      accountId)
    (hck : ops.sha256 (ops.sha256 (0 :: accountId)) = checksumSrc)
    (haidlen : accountId.length = 20)
    (haidbytes : ∀ b ∈ accountId, b < 256)
    (haidhead : accountId = a0 :: as0) (ha0 : a0 ≠ 0)
    (hcklen : 4 ≤ checksumSrc.length)
    (hckbytes : ∀ b ∈ checksumSrc.take 4, b < 256)
    (hval : 58 ^ 24 ≤ byteListVal (accountId ++ checksumSrc.take 4)) :
    (∃ sig, deriveSignatory ops hdKey index = .ok sig ∧
      sig.secretPrivateKey = "" ∧ isValidAddress sig.address = true) ∧
    hdNodeToPrivateKey ((hdKey.derive ops 0).derive ops index) =
      .error .privateKeyFromNeutered := by
  have hpriv : hdKey.privKeyBytes = none := by
    simpa [HDNode.isNeutered, Option.isNone_iff_eq_none] using hneut
  have hdneut : ((hdKey.derive ops 0).derive ops index).isNeutered = true := by
    simp [HDNode.isNeutered, HDNode.derive, hpriv]
  have haddr : publicKeyToAddress ops
        (hdNodeToPublicKey ((hdKey.derive ops 0).derive ops index)) =
      base58Encode (0 :: (accountId ++ checksumSrc.take 4)) := by
    unfold publicKeyToAddress hdNodeToPublicKey
    rw [padLeft_of_le _ 66 (by rw [hexString_length, hpklen])]
    rw [hexToBytes_toUpper_hexString _ hpkbytes]
    simp only [haid, hck, List.cons_append]
  constructor
  · refine ⟨⟨publicKeyToAddress ops
        (hdNodeToPublicKey ((hdKey.derive ops 0).derive ops index)), "",
        hdNodeToPublicKey ((hdKey.derive ops 0).derive ops index)⟩, ?_, rfl, ?_⟩
    · simp only [deriveSignatory, deriveBasePath_of_depth_ge ops hdKey hdepth, hdneut,
        if_true]
    · rw [haddr]
      refine base58Encode_valid (accountId ++ checksumSrc.take 4) ?_ ?_ a0
        (as0 ++ checksumSrc.take 4) (by rw [haidhead]; rfl) ha0 hval
      · rw [List.length_append, List.length_take]
        omega
      · intro b hb
        rcases List.mem_append.mp hb with h | h
        · exact haidbytes b h
        · exact hckbytes b h
  · simp [hdNodeToPrivateKey, hdneut]

/-- C8 counterexample: a neutered key above the account depth (here a
neutered root at depth 0) does not derive a signatory; the hardened path
components cannot be derived from a public-only key, so deriveSignatory
throws instead of succeeding. -/
theorem c8_counterexample :
    (⟨0, [2], none⟩ : HDNode).isNeutered = true ∧
    deriveSignatory ⟨fun _ _ => [], fun _ _ => [], fun _ => [], fun _ => []⟩
        ⟨0, [2], none⟩ 0 = .error .hardenedFromNeutered := by
  constructor
  · rfl
  · rfl

/-- Witness for C8 at a concrete neutered account-depth key with concrete
hash oracles. -/
theorem c8_watch_only_witness :
    (∃ sig, deriveSignatory
        ⟨fun _ _ => List.replicate 32 1 ++ [2], fun _ _ => List.replicate 32 3,
          fun _ => List.replicate 32 7, fun _ => 9 :: List.replicate 19 8⟩
        ⟨3, [], none⟩ 5 = .ok sig ∧
      sig.secretPrivateKey = "" ∧ isValidAddress sig.address = true) ∧
    hdNodeToPrivateKey ((HDNode.derive ⟨fun _ _ => List.replicate 32 1 ++ [2],
        fun _ _ => List.replicate 32 3, fun _ => List.replicate 32 7,
        fun _ => 9 :: List.replicate 19 8⟩
      (HDNode.derive ⟨fun _ _ => List.replicate 32 1 ++ [2],
        fun _ _ => List.replicate 32 3, fun _ => List.replicate 32 7,
        fun _ => 9 :: List.replicate 19 8⟩ ⟨3, [], none⟩ 0) 5)) =
      .error .privateKeyFromNeutered := by
  exact c8_watch_only
    ⟨fun _ _ => List.replicate 32 1 ++ [2], fun _ _ => List.replicate 32 3,
      fun _ => List.replicate 32 7, fun _ => 9 :: List.replicate 19 8⟩
    ⟨3, [], none⟩ 5 (9 :: List.replicate 19 8) (List.replicate 32 7) 9
    (List.replicate 19 8) rfl (by decide) (by decide) (by decide) rfl rfl
    (by decide) (by decide) rfl (by decide) (by decide) (by decide) (by decide)

end RipplePayments
